import Mathlib

/-!
Verification development for the unmessy email-cleanup service.

Emails are modelled as `List Char`.  JavaScript string primitives used by the
source (trim, toLowerCase, replace of whitespace, split on a separator,
endsWith, lastIndexOf, includes) are embedded as executable functions on
`List Char`.  JS `toLowerCase` is modelled on its ASCII fragment via
`Char.toLower`; the JS whitespace class `\s` is modelled on its common
members (space, tab, newline, carriage return, vertical tab, form feed,
no-break space).

The repository contains several overlapping variants of the validator:
- namespace `V1`: the first (synchronous, static-table) variant of
  `src/src/services/email-validator.js` (typo table only);
- namespace `V2`: the second variant in the same file (Redis era), whose
  `correctEmailTypos` additionally strips gmail plus-aliases and fixes
  Australian TLD spellings (lines 794-848);
- namespace `P7`: the Supabase service of `src/unnamed/part_007`
  (database-driven tables, ZeroBounce retry logic, orchestrated
  `validateEmail`, persistence, batch scheduling).
-/

/-- JS whitespace test (`\s`), restricted to its common members. -/
def isJsSpace (c : Char) : Bool :=
  c == ' ' || c == '\t' || c == '\n' || c == '\r' ||
  c == Char.ofNat 11 || c == Char.ofNat 12 || c == Char.ofNat 160

/-- JS `String.prototype.trim`: drop whitespace from both ends. -/
def jsTrim (s : List Char) : List Char :=
  ((s.dropWhile isJsSpace).reverse.dropWhile isJsSpace).reverse

/-- JS `String.prototype.toLowerCase` on the ASCII fragment. -/
def jsLower (s : List Char) : List Char :=
  s.map Char.toLower

/-- JS `str.replace(/\s/g, '')`: remove every whitespace character. -/
def stripSpaces (s : List Char) : List Char :=
  s.filter (fun c => !isJsSpace c)

/-- JS `str.includes(pat)`: substring containment. -/
def includesSub (s pat : List Char) : Bool :=
  s.tails.any (fun t => pat.isPrefixOf t)

/-- JS `str.lastIndexOf(pat)`: index of the rightmost occurrence, `-1` when
absent (`substring(0, -1)` then clamps to the empty prefix, matching
`Int.toNat` on the caller side). -/
def lastIndexOfA (s pat : List Char) : Int :=
  match ((List.range (s.length + 1)).filter (fun i => pat.isPrefixOf (s.drop i))).getLast? with
  | some i => (i : Int)
  | none => -1

/-- Local part of `s.split('@')`: the characters before the first `'@'`. -/
def localOf (s : List Char) : List Char :=
  s.takeWhile (fun c => c != '@')

/-- Domain of `s.split('@')`: the segment between the first and second `'@'`,
or `none` when the string has no `'@'` (JS destructuring yields
`undefined`). An empty segment is `some []` (JS yields `''`, which is falsy
wherever the source tests `domain && ...`). -/
def domainOf (s : List Char) : Option (List Char) :=
  match s.dropWhile (fun c => c != '@') with
  | [] => none
  | _ :: rest => some (rest.takeWhile (fun c => c != '@'))

/-- Result shape of `correctEmailTypos`: `{ corrected, email }`. -/
structure TypoResult where
  corrected : Bool
  email : List Char
deriving DecidableEq, Repr

/-- Shared opening phase of every `correctEmailTypos` variant:
`email.trim().toLowerCase()` followed by `replace(/\s/g, '')`, setting the
`corrected` flag exactly when the whitespace removal changed the string. -/
def spacePhase (email : List Char) : TypoResult :=
  let c0 := jsLower (jsTrim email)
  let ns := stripSpaces c0
  if ns = c0 then ⟨false, c0⟩ else ⟨true, ns⟩

/-- Static domain-typo table shared verbatim by both variants of
`email-validator.js` (`this.domainTypos`). -/
def domainTypoPairs : List (List Char × List Char) :=
  [("gmial.com".toList, "gmail.com".toList),
   ("gmal.com".toList, "gmail.com".toList),
   ("gmail.cm".toList, "gmail.com".toList),
   ("gmail.co".toList, "gmail.com".toList),
   ("gamil.com".toList, "gmail.com".toList),
   ("hotmial.com".toList, "hotmail.com".toList),
   ("hotmail.cm".toList, "hotmail.com".toList),
   ("yahoo.cm".toList, "yahoo.com".toList),
   ("yaho.com".toList, "yahoo.com".toList),
   ("outlook.cm".toList, "outlook.com".toList),
   ("outlok.com".toList, "outlook.com".toList)]

/-- Lookup in the static typo table (`this.domainTypos[domain]`). -/
def domainTypos (d : List Char) : Option (List Char) :=
  (domainTypoPairs.find? (fun p => p.1 == d)).map (fun p => p.2)

/-- Australian TLD list (`this.australianTlds`). -/
def australianTlds : List (List Char) :=
  [".com.au".toList, ".net.au".toList, ".org.au".toList, ".edu.au".toList,
   ".gov.au".toList, ".asn.au".toList, ".id.au".toList, ".au".toList]

/-- TLD-correction scan shared by the static variant (over
`australianTlds`) and the database variant (over the `valid_tlds` rows):
for the first `tld` whose dot-free form is a suffix of the domain while the
dotted form is not, rewrite the tail of the domain to the dotted form. -/
def tldScan (tlds : List (List Char)) (domain : List Char) : Option (List Char) :=
  tlds.findSome? (fun tld =>
    let tldNoDot := tld.filter (fun c => c != '.')
    if tldNoDot.isSuffixOf domain && !tld.isSuffixOf domain then
      some (domain.take (lastIndexOfA domain tldNoDot).toNat ++ tld)
    else none)

/-- Characters admitted by the local-part class of the format regex
`[a-zA-Z0-9.!#$%&'*+/=?^_\x60\x7b|\x7d~-]`. -/
def isLocalChar (c : Char) : Bool :=
  c.isAlphanum || c == '.' || c == '!' || c == '#' || c == '$' || c == '%' ||
  c == '&' || c == Char.ofNat 39 || c == '*' || c == '+' || c == '/' ||
  c == '=' || c == '?' || c == '^' || c == '_' || c == Char.ofNat 96 ||
  c == Char.ofNat 123 || c == '|' || c == Char.ofNat 125 || c == '~' || c == '-'

/-- Tail of a domain label after its leading alphanumeric character:
`([a-zA-Z0-9-]{0,61}[a-zA-Z0-9])?` without the length bound, i.e. either
empty, or hyphen/alphanumeric characters ending in an alphanumeric. -/
def labelTail : List Char → Bool
  | [] => true
  | [c] => c.isAlphanum
  | c :: rest => (c.isAlphanum || c == '-') && labelTail rest

/-- Domain label rule of the format regex:
`[a-zA-Z0-9](?:[a-zA-Z0-9-]{0,61}[a-zA-Z0-9])?` — nonempty, starts and ends
alphanumeric, hyphens only inside, at most 63 characters. -/
def validLabel : List Char → Bool
  | [] => false
  | c :: rest => c.isAlphanum && labelTail rest && rest.length ≤ 62

/-- Format checker `isValidEmailFormat` (identical regex in every variant):
`/^[class]+@label(\.label)*$/`.  Since neither character class admits `'@'`,
a match decomposes the string at its unique `'@'`. -/
def isValidEmailFormat (email : List Char) : Bool :=
  let l := email.takeWhile (fun c => c != '@')
  match email.dropWhile (fun c => c != '@') with
  | [] => false
  | _ :: d => !l.isEmpty && l.all isLocalChar && (d.splitOn '.').all validLabel

namespace V1

/-- Typo correction of the first `email-validator.js` variant (lines
320-344): whitespace cleanup then static domain-typo substitution. -/
def correctEmailTypos (email : List Char) : TypoResult :=
  if email = [] then ⟨false, email⟩ else
  let st1 := spacePhase email
  let localPart := localOf st1.email
  match domainOf st1.email with
  | some dom =>
    if dom ≠ [] then
      match domainTypos dom with
      | some fix => ⟨true, localPart ++ '@' :: fix⟩
      | none => st1
    else st1
  | none => st1

/-- Static allowlist `this.commonValidDomains`. -/
def commonValidDomains : List (List Char) :=
  ["gmail.com".toList, "outlook.com".toList, "hotmail.com".toList,
   "yahoo.com".toList, "icloud.com".toList, "aol.com".toList,
   "protonmail.com".toList, "fastmail.com".toList, "mail.com".toList,
   "zoho.com".toList, "yandex.com".toList, "gmx.com".toList,
   "live.com".toList, "msn.com".toList, "me.com".toList, "mac.com".toList,
   "googlemail.com".toList, "pm.me".toList, "tutanota.com".toList,
   "mailbox.org".toList]

/-- Domain allowlist check `isValidDomain` (first variant, lines 347-355). -/
def isValidDomain (email : List Char) : Bool :=
  match domainOf email with
  | none => false
  | some d => if d = [] then false else commonValidDomains.contains d

/-- Subset of the `quickValidate` result fields needed by the claims. -/
structure QuickResult where
  originalEmail : List Char
  currentEmail : List Char
  formatValid : Bool
  wasCorrected : Bool
  domainValid : Bool
  status : String
  subStatus : Option String
  recheckNeeded : Bool
deriving DecidableEq, Repr

/-- Local validation `quickValidate` of the first variant (lines 358-411):
format gate, typo correction, then static domain allowlist check. -/
def quickValidate (email : List Char) : QuickResult :=
  if isValidEmailFormat email = false then
    { originalEmail := email, currentEmail := email, formatValid := false,
      wasCorrected := false, domainValid := false, status := "invalid",
      subStatus := some "bad_format", recheckNeeded := false }
  else
    let t := correctEmailTypos email
    let domainValid := isValidDomain t.email
    { originalEmail := email, currentEmail := t.email, formatValid := true,
      wasCorrected := t.corrected, domainValid := domainValid,
      status := if domainValid then "valid" else "unknown",
      subStatus := none, recheckNeeded := !domainValid }

end V1

namespace V2

/-- Typo correction of the second `email-validator.js` variant (lines
794-848): whitespace cleanup, static domain-typo substitution, gmail
plus-alias stripping, Australian TLD repair.  The split into `localPart`
and `domain` happens once, before any substitution, exactly as in the
source; later steps therefore consult the pre-substitution `domain`. -/
def correctEmailTypos (removeGmailAliases checkAustralianTlds : Bool)
    (email : List Char) : TypoResult :=
  if email = [] then ⟨false, email⟩ else
  let st1 := spacePhase email
  let localPart := localOf st1.email
  let domOpt := domainOf st1.email
  let st2 :=
    match domOpt with
    | some dom =>
      if dom ≠ [] then
        match domainTypos dom with
        | some fix => ⟨true, localPart ++ '@' :: fix⟩
        | none => st1
      else st1
    | none => st1
  let st3 :=
    if removeGmailAliases && domOpt == some ("gmail.com".toList) &&
        localPart.contains '+' then
      ⟨true, localPart.takeWhile (fun c => c != '+') ++ '@' :: "gmail.com".toList⟩
    else st2
  if checkAustralianTlds then
    match domOpt with
    | some dom =>
      if dom ≠ [] then
        match tldScan australianTlds dom with
        | some newDomain => ⟨true, localPart ++ '@' :: newDomain⟩
        | none => st3
      else st3
    | none => st3
  else st3

end V2

namespace P7

/-- Payload returned by the ZeroBounce HTTP API (`result` JSON): the fields
the service reads. -/
structure ZBPayload where
  status : String
  sub_status : Option String := none
  did_you_mean : Option (List Char) := none
deriving DecidableEq, Repr

/-- Result shape of `checkWithZeroBounce`; generated check identifiers and
timestamps are elided. -/
structure ZBOut where
  email : List Char
  status : String
  subStatus : Option String := none
  recheckNeeded : Bool
  suggestedEmail : Option (List Char) := none
  source : Option String := none
  um_email_status : Option String := none
  um_bounce_status : Option String := none
  retryCount : Nat := 0
  errorMsg : Option (List Char) := none
deriving DecidableEq, Repr

/-- ZeroBounce client configuration (`this.config` and
`this.zeroBounceMaxRetries`, `this.timeouts`). `apiKeyPresent` is the
truthiness of `config.zeroBounceApiKey`; `useZeroBounceSetFalse` is the
test `config.useZeroBounce === false`. -/
structure ZBCfg where
  apiKeyPresent : Bool
  useZeroBounceSetFalse : Bool
  maxRetries : Nat := 1
  tZeroBounce : Int := 6000
  tZeroBounceRetry : Int := 8000
deriving DecidableEq, Repr

/-- Events observable at the collaborator boundaries of one validation. -/
inductive VEvent where
  | knownGoodLookup (email : List Char)
  | oracleAttempt (email : List Char) (timeoutMs : Int)
  | oracleBackoff (delayMs : Int)
  | recurse (suggested : List Char) (timeoutMs : Int) (isRetry : Bool)
  | saveCall (email : List Char) (status : String)
  | quickOnly (email : List Char)
  | slice (email : List Char) (timeoutMs : Int)
deriving DecidableEq, Repr

/-- Backoff delay before a retry: `Math.min(1000 * Math.pow(2, retryCount), 3000)`. -/
def zbBackoff (retryCount : Nat) : Int :=
  min (1000 * 2 ^ retryCount) 3000

/-- Status mapping switch of `checkWithZeroBounce` (part_007 lines
1276-1342) applied to a payload the API returned. -/
def zbMapPayload (email : List Char) (retryCount : Nat) (p : ZBPayload) : ZBOut :=
  let suggestedEmail := p.did_you_mean
  let umEmailStatus : String := if suggestedEmail.isSome then "Changed" else "Unchanged"
  let base : ZBOut :=
    { email := email, status := "check_failed", recheckNeeded := true,
      suggestedEmail := suggestedEmail, source := some "zerobounce",
      um_email_status := some umEmailStatus, um_bounce_status := some "Unknown",
      retryCount := retryCount }
  if p.status = "valid" then
    { base with
      status := "valid", recheckNeeded := false,
      um_bounce_status := some "Unlikely to bounce" }
  else if p.status = "invalid" then
    { base with
      status := "invalid", subStatus := p.sub_status,
      recheckNeeded := false, um_bounce_status := some "Likely to bounce" }
  else if p.status = "catch-all" ∨ p.status = "unknown" then
    { base with status := "unknown", recheckNeeded := true }
  else if p.status = "spamtrap" then
    { base with
      status := "invalid", subStatus := some "spamtrap",
      recheckNeeded := false, um_bounce_status := some "Likely to bounce" }
  else if p.status = "abuse" then
    { base with
      status := "invalid", subStatus := some "abuse",
      recheckNeeded := false, um_bounce_status := some "Likely to bounce" }
  else
    { base with status := "check_failed", recheckNeeded := true }

/-- Failure value returned by `checkWithZeroBounce` once no retry is
possible (part_007 lines 1377-1385). -/
def zbFailure (email msg : List Char) (retryCount : Nat) : ZBOut :=
  { email := email, status := "check_failed", recheckNeeded := true,
    source := some "zerobounce", errorMsg := some msg,
    retryCount := retryCount }

/-- Loop of `checkWithZeroBounce` (part_007 lines 1208-1387).  The
transport is abstracted by `attempts`: for each retry count it either
yields the API payload or fails with the JS error message (timeout errors
carry the message `ZeroBounce check timeout`; a non-2xx response carries
`ZeroBounce API error: <status> <statusText>`).  A failed attempt is
retried exactly when the message mentions timeout or network and
`retryCount < maxRetries`.  `fuel` is the number of retries still
available, `cfg.maxRetries - retryCount` at every reachable call; its zero
case inside the retry branch is unreachable and blocks the retry.  Returns
the result and the boundary events: one `oracleAttempt` per HTTP attempt
(recording the timeout used) and one `oracleBackoff` per retry wait. -/
def checkWithZeroBounceF (cfg : ZBCfg) (attempts : Nat → Except (List Char) ZBPayload)
    (email : List Char) : Nat → Nat → ZBOut × List VEvent
  | fuel, retryCount =>
    if !cfg.apiKeyPresent || cfg.useZeroBounceSetFalse then
      ({ email := email, status := "check_skipped", recheckNeeded := true,
         source := some "configuration" }, [])
    else
      let timeoutMs := if retryCount > 0 then cfg.tZeroBounceRetry else cfg.tZeroBounce
      match attempts retryCount with
      | .ok p => (zbMapPayload email retryCount p, [.oracleAttempt email timeoutMs])
      | .error msg =>
        if (includesSub msg ("timeout".toList) || includesSub msg ("network".toList)) &&
           decide (retryCount < cfg.maxRetries) then
          match fuel with
          | n + 1 =>
            let r := checkWithZeroBounceF cfg attempts email n (retryCount + 1)
            (r.1, .oracleAttempt email timeoutMs :: .oracleBackoff (zbBackoff retryCount) :: r.2)
          | 0 => (zbFailure email msg retryCount, [.oracleAttempt email timeoutMs])
        else (zbFailure email msg retryCount, [.oracleAttempt email timeoutMs])

/-- Oracle client `checkWithZeroBounce`: the loop entered with its full
retry budget. -/
def checkWithZeroBounce (cfg : ZBCfg) (attempts : Nat → Except (List Char) ZBPayload)
    (email : List Char) (retryCount : Nat) : ZBOut × List VEvent :=
  checkWithZeroBounceF cfg attempts email (cfg.maxRetries - retryCount) retryCount

/-- Known-good record returned by the `email_validations` point lookup
(`isKnownValidEmail`); timestamps other than the epoch are elided. -/
structure KnownRec where
  um_email_status : String
  um_bounce_status : String
  um_check_id : String
  epoch : Nat
deriving DecidableEq, Repr

/-- Service configuration for part_007 (`this.supabaseEnabled`, the
post-test connection status, `this.config.removeGmailAliases`, the
ZeroBounce settings, and the abstracted generated check id). -/
structure VCfg where
  supabaseEnabled : Bool
  connectionStatus : String
  removeGmailAliases : Bool := true
  zb : ZBCfg
  genCheckId : String := "chk"
deriving DecidableEq, Repr

/-- External collaborators of one validation, abstracted as functions:
the four Supabase tables consulted by the quick phase, the known-good
lookup, the per-retry ZeroBounce transport, the outer validation-timeout
outcome per address, and the clock. -/
structure VEnv where
  domainTypoTable : List Char → Option (List Char)
  tldTable : List (List Char)
  invalidDomains : List Char → Bool
  commonValidDomains : List Char → Bool
  knownData : List Char → Option KnownRec
  zbAttempts : List Char → Nat → Except (List Char) ZBPayload
  timesOut : List Char → Bool
  now : Nat

/-- Database-gated invalid-domain check `checkInvalidDomain` (part_007
lines 462-521): answers `false` unless Supabase is enabled and connected
and a nonempty domain is supplied. -/
def checkInvalidDomain (cfg : VCfg) (env : VEnv) (dom : Option (List Char)) : Bool :=
  match dom with
  | none => false
  | some d =>
    if d = [] ∨ ¬cfg.supabaseEnabled ∨ cfg.connectionStatus ≠ "connected" then false
    else env.invalidDomains d

/-- Database-gated allowlist check `checkCommonValidDomain` (lines 524-583). -/
def checkCommonValidDomain (cfg : VCfg) (env : VEnv) (dom : Option (List Char)) : Bool :=
  match dom with
  | none => false
  | some d =>
    if d = [] ∨ ¬cfg.supabaseEnabled ∨ cfg.connectionStatus ≠ "connected" then false
    else env.commonValidDomains d

/-- Database-gated typo lookup `checkDomainTypo` (lines 586-645). -/
def checkDomainTypo (cfg : VCfg) (env : VEnv) (dom : Option (List Char)) : Option (List Char) :=
  match dom with
  | none => none
  | some d =>
    if d = [] ∨ ¬cfg.supabaseEnabled ∨ cfg.connectionStatus ≠ "connected" then none
    else env.domainTypoTable d

/-- Database-gated TLD repair `checkTldCorrection` (lines 648-724): scans
the `valid_tlds` rows with the same suffix logic as the static variant. -/
def checkTldCorrection (cfg : VCfg) (env : VEnv) (dom : Option (List Char)) : Option (List Char) :=
  match dom with
  | none => none
  | some d =>
    if d = [] ∨ ¬cfg.supabaseEnabled ∨ cfg.connectionStatus ≠ "connected" then none
    else tldScan env.tldTable d

/-- Typo correction of part_007 (`correctEmailTypos`, lines 1019-1062):
whitespace cleanup, database typo substitution, gmail plus-alias stripping,
database TLD repair.  As in the source, the TLD repair re-splits the
current string for the domain but rebuilds the address with the original
`localPart`. -/
def correctEmailTypos (cfg : VCfg) (env : VEnv) (email : List Char) : TypoResult :=
  if email = [] then ⟨false, email⟩ else
  let st1 := spacePhase email
  let localPart := localOf st1.email
  let domOpt := domainOf st1.email
  match domOpt with
  | none => st1
  | some dom =>
    if dom = [] then st1 else
    let st2 :=
      match checkDomainTypo cfg env (some dom) with
      | some fix => (⟨true, localPart ++ '@' :: fix⟩ : TypoResult)
      | none => st1
    let st3 :=
      if cfg.removeGmailAliases && dom == "gmail.com".toList &&
          localPart.contains '+' then
        (⟨true, localPart.takeWhile (fun c => c != '+') ++ '@' :: "gmail.com".toList⟩ : TypoResult)
      else st2
    let domAfter := domainOf st3.email
    match checkTldCorrection cfg env domAfter with
    | some newDomain => ⟨true, localPart ++ '@' :: newDomain⟩
    | none => st3

/-- Validation result of part_007; step trail, timestamps and the raw
ZeroBounce details are elided. -/
structure VResult where
  originalEmail : List Char
  currentEmail : List Char
  formatValid : Bool
  wasCorrected : Bool
  domainValid : Bool := false
  isInvalidDomain : Bool := false
  isKnownValid : Bool := false
  status : String
  subStatus : Option String := none
  recheckNeeded : Bool
  um_email : List Char := []
  um_email_status : Option String := none
  um_bounce_status : Option String := none
  um_check_id : Option String := none
deriving DecidableEq, Repr

/-- Domain-validity check `isValidDomain` of part_007 (lines 1065-1092):
denylist first, then allowlist. -/
def isValidDomain (cfg : VCfg) (env : VEnv) (email : List Char) : Bool :=
  let dom := domainOf email
  match dom with
  | none => false
  | some _ =>
    if checkInvalidDomain cfg env dom then false
    else checkCommonValidDomain cfg env dom

/-- Quick validation of part_007 (`quickValidate`, lines 1095-1205):
format gate, typo correction, denylist gate, allowlist verdict. -/
def quickValidate (cfg : VCfg) (env : VEnv) (email : List Char) : VResult :=
  if isValidEmailFormat email = false then
    { originalEmail := email, currentEmail := email, formatValid := false,
      wasCorrected := false, status := "invalid",
      subStatus := some "bad_format", recheckNeeded := false,
      um_email := email, um_email_status := some "Unable to change",
      um_bounce_status := some "Likely to bounce" }
  else
    let t := correctEmailTypos cfg env email
    let dom := domainOf t.email
    if checkInvalidDomain cfg env dom then
      { originalEmail := email, currentEmail := t.email, formatValid := true,
        wasCorrected := t.corrected, domainValid := false,
        isInvalidDomain := true, status := "invalid",
        subStatus := some "invalid_domain", recheckNeeded := false,
        um_email := t.email,
        um_email_status := some (if t.corrected then "Changed" else "Unchanged"),
        um_bounce_status := some "Likely to bounce" }
    else
      let domainValid := isValidDomain cfg env t.email
      { originalEmail := email, currentEmail := t.email, formatValid := true,
        wasCorrected := t.corrected, domainValid := domainValid,
        status := if domainValid then "valid" else "unknown",
        recheckNeeded := !domainValid, um_email := t.email,
        um_email_status := some (if t.corrected then "Changed" else "Unchanged"),
        um_bounce_status := some (if domainValid then "Unlikely to bounce" else "Unknown") }

/-- One row of the `email_validations` table (persisted fields the claims
mention; dates elided). -/
structure VRecord where
  id : Nat
  contact_id : Nat
  email : List Char
  um_email : List Char
  um_email_status : String
  um_bounce_status : String
  um_check_id : String
deriving DecidableEq, Repr

/-- Relational store: the `contacts` table (ids only), the
`email_validations` table, and the id sequence. -/
structure Store where
  contacts : List Nat
  validations : List VRecord
  nextId : Nat
deriving DecidableEq, Repr

/-- Outcome value of `saveValidationResult`. -/
structure SaveOut where
  success : Bool
  operation : Option String := none
deriving DecidableEq, Repr

/-- Field defaulting used by the save path: `um_email_status` falls back to
Changed/Unchanged from `wasCorrected`, `um_bounce_status` to the
bounce-likelihood of the status. -/
def saveEmailStatus (vr : VResult) : String :=
  match vr.um_email_status with
  | some s => s
  | none => if vr.wasCorrected then "Changed" else "Unchanged"

/-- Bounce-status defaulting of the save path. -/
def saveBounceStatus (vr : VResult) : String :=
  match vr.um_bounce_status with
  | some s => s
  | none =>
    if vr.status = "valid" then "Unlikely to bounce"
    else if vr.status = "invalid" then "Likely to bounce"
    else "Unknown"

/-- JS `validationResult.currentEmail || validationResult.um_email || email`. -/
def saveUmEmail (vr : VResult) (email : List Char) : List Char :=
  if vr.currentEmail ≠ [] then vr.currentEmail
  else if vr.um_email ≠ [] then vr.um_email
  else email

/-- Persistence writer `saveValidationResult` of part_007 (lines 780-1010):
refuses any result whose status is not `valid`; requires Supabase enabled
and (after the optional connection test) a connected status; then looks up
the address with `maybeSingle` and either updates the existing row in place
or inserts a fresh contact plus validation row.  `maybeSingle` errors when
the address has more than one row, which the source converts into a failed
save with the store untouched. -/
def saveValidationResult (cfg : VCfg) (store : Store) (email : List Char)
    (vr : VResult) : SaveOut × Store :=
  if vr.status ≠ "valid" then ({ success := false }, store)
  else if ¬cfg.supabaseEnabled then ({ success := false }, store)
  else if cfg.connectionStatus ≠ "connected" then ({ success := false }, store)
  else
    let umCheckId := vr.um_check_id.getD cfg.genCheckId
    match store.validations.filter (fun r => r.email == email) with
    | [] =>
      let contactId := store.nextId
      let newRec : VRecord :=
        { id := store.nextId + 1, contact_id := contactId, email := email,
          um_email := saveUmEmail vr email,
          um_email_status := saveEmailStatus vr,
          um_bounce_status := saveBounceStatus vr, um_check_id := umCheckId }
      ({ success := true, operation := some "insert" },
       { contacts := store.contacts ++ [contactId],
         validations := store.validations ++ [newRec],
         nextId := store.nextId + 2 })
    | [r] =>
      let upd : VRecord :=
        { r with
          um_email := saveUmEmail vr email,
          um_email_status := saveEmailStatus vr,
          um_bounce_status := saveBounceStatus vr,
          um_check_id := umCheckId }
      ({ success := true, operation := some "update" },
       { store with
         validations :=
           store.validations.map (fun x => if x.id == r.id then upd else x) })
    | _ :: _ :: _ => ({ success := false }, store)

/-- Options record of `validateEmail`.  Timeouts are modelled in integer
milliseconds; the source's `* 0.8` and `/ 2` are exact at the configured
defaults. -/
structure VOptions where
  skipZeroBounce : Bool := false
  timeoutMs : Int := 7000
  isRetry : Bool := false
  retryCount : Nat := 0
deriving DecidableEq, Repr

/-- Millisecond interpretation of a stored epoch (part_007 lines
1473-1476): values above `10^12` are already milliseconds, otherwise
seconds. -/
def lastCheckMs (k : KnownRec) : Nat :=
  if k.epoch > 1000000000000 then k.epoch else k.epoch * 1000

/-- Freshness window test on a found record (line 1478): last check within
seven days. -/
def freshHit (env : VEnv) (k : KnownRec) : Bool :=
  env.now - lastCheckMs k < 604800000

/-- Result enrichment from a found known-good record (lines 1446-1467). -/
def adoptKnown (q : VResult) (k : KnownRec) : VResult :=
  { q with
    isKnownValid := true,
    status := if k.um_bounce_status = "Unlikely to bounce" then "valid" else "invalid",
    recheckNeeded := false,
    um_email_status := some k.um_email_status,
    um_bounce_status := some k.um_bounce_status,
    um_check_id := some k.um_check_id }

/-- Result enrichment from a definitive ZeroBounce verdict (lines
1575-1585): only `valid`/`invalid` update the result. -/
def adoptZB (r : VResult) (bc : ZBOut) : VResult :=
  if bc.status = "valid" ∨ bc.status = "invalid" then
    { r with
      status := bc.status, subStatus := bc.subStatus,
      recheckNeeded := bc.recheckNeeded,
      um_bounce_status := bc.um_bounce_status }
  else r

/-- Final save step of the orchestration (lines 1636-1660): a synchronous
save is attempted exactly when Supabase is enabled and the result is
`valid`. -/
def finishSave (cfg : VCfg) (store : Store) (email : List Char) (r : VResult)
    (evs : List VEvent) : VResult × Store × List VEvent :=
  if cfg.supabaseEnabled ∧ r.status = "valid" then
    let s := saveValidationResult cfg store email r
    (r, s.2, evs ++ [.saveCall email r.status])
  else (r, store, evs)

/-- Validation orchestrator `validateEmail` of part_007 (lines 1390-1698).
The outer `withTimeout` outcome is abstracted by `env.timesOut`; when it
fires the quick result is returned (with the fallback save of a valid
quick result).  Otherwise the known-good lookup and the ZeroBounce check
run (the source issues them concurrently via `Promise.allSettled`; both
are modelled as already-settled values), a fresh known-good hit returns
early, a ZeroBounce suggestion on a non-retry call re-validates the
suggested address once with a reduced deadline unless its domain is
denylisted, and a valid final result is saved synchronously.  Returns the
result, the updated store, and the boundary events.  `fuel` is the
re-validation budget the retry flag encodes (`0` on a re-validation call,
`1` otherwise); the zero-fuel case inside the suggestion branch is
unreachable from `validateEmail` and blocks recursion. -/
def validateEmailF (cfg : VCfg) (env : VEnv) :
    Nat → Store → List Char → VOptions → VResult × Store × List VEvent
  | fuel, store, email, opts =>
    let q := quickValidate cfg env email
    if q.formatValid = false then (q, store, [])
    else if q.isInvalidDomain then (q, store, [])
    else if env.timesOut email then
      if cfg.supabaseEnabled ∧ q.status = "valid" then
        let s := saveValidationResult cfg store email q
        (q, s.2, [.saveCall email q.status])
      else (q, store, [])
    else
      let known := env.knownData q.currentEmail
      let zbPart : Option ZBOut × List VEvent :=
        if opts.skipZeroBounce then (none, [])
        else
          let z := checkWithZeroBounce cfg.zb (env.zbAttempts q.currentEmail)
                     q.currentEmail opts.retryCount
          (some z.1, z.2)
      let evs0 := VEvent.knownGoodLookup q.currentEmail :: zbPart.2
      let r1 := match known with
        | some k => adoptKnown q k
        | none => { q with isKnownValid := false }
      if (match known with | some k => freshHit env k | none => false) = true then
        (r1, store, evs0)
      else
        match zbPart.1 with
        | some bc =>
          match bc.suggestedEmail with
          | some s =>
            if opts.isRetry = false then
              if checkInvalidDomain cfg env (domainOf s) then
                ({ r1 with
                   status := "invalid", subStatus := some "invalid_domain",
                   recheckNeeded := false,
                   um_bounce_status := some "Likely to bounce" },
                 store, evs0)
              else
                match fuel with
                | n + 1 =>
                  let inner := validateEmailF cfg env n store s
                    { skipZeroBounce := false, timeoutMs := opts.timeoutMs * 4 / 5,
                      isRetry := true, retryCount := 0 }
                  let r2 :=
                    { inner.1 with
                      originalEmail := email, wasCorrected := true,
                      um_email_status := some "Changed" }
                  (r2, inner.2.1,
                   evs0 ++ [.recurse s (opts.timeoutMs * 4 / 5) true] ++ inner.2.2)
                | 0 => finishSave cfg store email (adoptZB r1 bc) evs0
            else finishSave cfg store email (adoptZB r1 bc) evs0
          | none => finishSave cfg store email (adoptZB r1 bc) evs0
        | none => finishSave cfg store email r1 evs0

/-- Validation orchestrator `validateEmail`: the loop of `validateEmailF`
entered with the depth budget the retry flag encodes — one re-validation
is available exactly when the call is not itself a re-validation, so the
zero-fuel case inside the suggestion branch of `validateEmailF` is
unreachable from here. -/
def validateEmail (cfg : VCfg) (env : VEnv) (store : Store) (email : List Char)
    (opts : VOptions) : VResult × Store × List VEvent :=
  validateEmailF cfg env (if opts.isRetry then 0 else 1) store email opts

/-- Batch scheduler `validateBatch` of part_007 (lines 1701-1767),
specialised to the loop state: processes the emails in order, giving each
full validation `min(remaining budget, per-item budget)`; once the
remaining budget drops below half the per-item budget, every remaining
email is handled by `quickValidate` alone.  `durations` abstracts the
wall-clock time consumed by each full-validation iteration. -/
def validateBatchGo (cfg : VCfg) (env : VEnv) (durations : Nat → Int)
    (skipZeroBounce : Bool) (perItem total : Int) :
    Nat → Int → Store → List (List Char) → List VResult × Store × List VEvent
  | _, _, store, [] => ([], store, [])
  | i, elapsed, store, email :: rest =>
    let remaining := total - elapsed
    if remaining < perItem / 2 then
      ((email :: rest).map (fun e => quickValidate cfg env e), store,
       (email :: rest).map (fun e => VEvent.quickOnly e))
    else
      let slice := min remaining perItem
      let r := validateEmail cfg env store email
        { skipZeroBounce := skipZeroBounce, timeoutMs := slice }
      let tail := validateBatchGo cfg env durations skipZeroBounce perItem total
        (i + 1) (elapsed + durations i) r.2.1 rest
      (r.1 :: tail.1, tail.2.1,
       (VEvent.slice email slice :: r.2.2) ++ tail.2.2)

/-- Batch entry point (lines 1701-1716): total budget
`min(9000, n * timeoutPerEmailMs)`, then the scheduling loop. -/
def validateBatch (cfg : VCfg) (env : VEnv) (durations : Nat → Int)
    (skipZeroBounce : Bool) (timeoutPerEmailMs : Int) (store : Store)
    (emails : List (List Char)) : List VResult × Store × List VEvent :=
  let total := min 9000 (emails.length * timeoutPerEmailMs)
  validateBatchGo cfg env durations skipZeroBounce timeoutPerEmailMs total
    0 0 store emails

/-- Bad-format record assembled inline by the batch HTTP handler
(`api/validate/batch.js` lines 112-119). -/
def handlerBadFormat (email : List Char) : VResult :=
  { originalEmail := email, currentEmail := email, formatValid := false,
    wasCorrected := false, status := "invalid",
    subStatus := some "bad_format", recheckNeeded := false }

/-- Result assembly of the batch HTTP handler (`api/validate/batch.js`
lines 84-122): addresses passing the format check are batch-validated
first, and the bad-format addresses are appended afterwards. -/
def batchHandlerResults (cfg : VCfg) (env : VEnv) (durations : Nat → Int)
    (skipZeroBounce : Bool) (timeoutPerEmailMs : Int) (store : Store)
    (emails : List (List Char)) : List VResult :=
  let validFormatEmails := emails.filter (fun e => isValidEmailFormat e)
  let invalidFormatEmails := emails.filter (fun e => !validFormatEmails.contains e)
  (validateBatch cfg env durations skipZeroBounce timeoutPerEmailMs store
    validFormatEmails).1 ++ invalidFormatEmails.map handlerBadFormat

end P7

/-- Well-formed store: validation row ids are pairwise distinct and below
the id sequence. -/
def P7.Store.WF (s : P7.Store) : Prop :=
  s.validations.Pairwise (fun a b => a.id ≠ b.id) ∧
  ∀ r ∈ s.validations, r.id < s.nextId

/-- Number of re-validation recursions recorded in an event trace. -/
def P7.recurseCount (evs : List P7.VEvent) : Nat :=
  evs.countP (fun e => match e with | .recurse _ _ _ => true | _ => false)

/-- Number of oracle HTTP attempts recorded in an event trace. -/
def P7.oracleAttemptCount (evs : List P7.VEvent) : Nat :=
  evs.countP (fun e => match e with | .oracleAttempt _ _ => true | _ => false)

/-- Statuses passed to the persistence writer in an event trace. -/
def P7.saveStatuses (evs : List P7.VEvent) : List String :=
  evs.filterMap (fun e => match e with | .saveCall _ st => some st | _ => none)

/-- Whether an event touches the known-good cache or the oracle. -/
def P7.networkEvent (e : P7.VEvent) : Bool :=
  match e with
  | .knownGoodLookup _ => true
  | .oracleAttempt _ _ => true
  | _ => false

/-- Exceptional inputs of the static normalizer: the domain-typo
substitution rewrites the domain to `gmail.com` while the local part
carries a plus-alias, so alias stripping only fires on a second pass. -/
def typoExposesAlias (email : List Char) : Bool :=
  let c1 := (spacePhase email).email
  match domainOf c1 with
  | some d =>
    !d.isEmpty && domainTypos d == some ("gmail.com".toList) &&
    (localOf c1).contains '+'
  | none => false

/-- Decidable equality for transport outcomes. -/
instance {e a : Type} [DecidableEq e] [DecidableEq a] : DecidableEq (Except e a)
  | .ok x, .ok y =>
    if h : x = y then .isTrue (by rw [h])
    else .isFalse (by intro he; cases he; exact h rfl)
  | .ok _, .error _ => .isFalse (by intro h; cases h)
  | .error _, .ok _ => .isFalse (by intro h; cases h)
  | .error x, .error y =>
    if h : x = y then .isTrue (by rw [h])
    else .isFalse (by intro he; cases he; exact h rfl)

/-- Characters stable under the normalization phase: not whitespace and
fixed by lowercasing. -/
def charOK (c : Char) : Prop :=
  isJsSpace c = false ∧ Char.toLower c = c

instance (c : Char) : Decidable (charOK c) :=
  inferInstanceAs (Decidable (_ ∧ _))

namespace P7

/-- Sample configuration with every external collaborator disabled. -/
def sampleCfg : VCfg :=
  { supabaseEnabled := false, connectionStatus := "disabled",
    zb := { apiKeyPresent := false, useZeroBounceSetFalse := false } }

/-- Sample environment with empty tables, no known-good data, failing
transport and no timeouts. -/
def sampleEnv : VEnv :=
  { domainTypoTable := fun _ => none, tldTable := [],
    invalidDomains := fun _ => false, commonValidDomains := fun _ => false,
    knownData := fun _ => none, zbAttempts := fun _ _ => .error ("x".toList),
    timesOut := fun _ => false, now := 0 }

/-- Empty store. -/
def sampleStore : Store := { contacts := [], validations := [], nextId := 0 }

/-- ZeroBounce configuration with the oracle enabled and default settings. -/
def zbCfgOn : ZBCfg := { apiKeyPresent := true, useZeroBounceSetFalse := false }

/-- Transport failing with a 5xx response on the first attempt and
succeeding afterwards. -/
def attempts5xx : Nat → Except (List Char) ZBPayload
  | 0 => .error ("ZeroBounce API error: 500 Internal Server Error".toList)
  | _ => .ok { status := "valid" }

/-- Transport timing out on every attempt. -/
def attemptsTimeout : Nat → Except (List Char) ZBPayload
  | _ => .error ("ZeroBounce check timeout".toList)

/-- Service configuration with Supabase connected and the oracle enabled. -/
def cfgFull : VCfg :=
  { supabaseEnabled := true, connectionStatus := "connected", zb := zbCfgOn }

/-- Environment whose oracle suggests `c@d.co` for every address; nothing
is denylisted. -/
def envSuggest : VEnv :=
  { sampleEnv with
    zbAttempts := fun _ _ => .ok { status := "valid", did_you_mean := some ("c@d.co".toList) } }

/-- Environment whose oracle suggests `x@bad.co`, with `bad.co`
denylisted. -/
def envSuggestDeny : VEnv :=
  { sampleEnv with
    invalidDomains := fun d => d == "bad.co".toList,
    zbAttempts := fun _ _ => .ok { status := "valid", did_you_mean := some ("x@bad.co".toList) } }

/-- Valid validation result used to exercise the persistence writer. -/
def sampleValidResult : VResult :=
  { originalEmail := "a@b.co".toList, currentEmail := "a@b.co".toList,
    formatValid := true, wasCorrected := false, status := "valid",
    recheckNeeded := false }

end P7

theorem charOfNat_toNat (n : Nat) (h : n ≤ 122) : (Char.ofNat n).toNat = n := by
  unfold Char.ofNat
  split
  · rfl
  · rename_i hv
    exact absurd (Or.inl (by omega)) hv

theorem toLower_toLower (c : Char) : c.toLower.toLower = c.toLower := by
  unfold Char.toLower
  by_cases h : c.toNat ≥ 65 ∧ c.toNat ≤ 90
  · simp only [if_pos h]
    rw [charOfNat_toNat _ (by omega), if_neg (by omega)]
  · simp only [if_neg h]

theorem char_eq_iff_toNat (c d : Char) : c = d ↔ c.toNat = d.toNat := by
  constructor
  · intro h; rw [h]
  · intro h
    have h1 := Char.ofNat_toNat c
    rw [h, Char.ofNat_toNat] at h1
    exact h1.symm

theorem isJsSpace_iff (c : Char) :
    isJsSpace c = true ↔
      (c.toNat = 32 ∨ c.toNat = 9 ∨ c.toNat = 10 ∨ c.toNat = 13 ∨
       c.toNat = 11 ∨ c.toNat = 12 ∨ c.toNat = 160) := by
  unfold isJsSpace
  simp only [Bool.or_eq_true, beq_iff_eq, char_eq_iff_toNat]
  constructor
  · rintro ((((((h | h) | h) | h) | h) | h) | h) <;>
      simp only [h] <;> tauto
  · rintro (h | h | h | h | h | h | h) <;> rw [h] <;> tauto

theorem isJsSpace_toLower (c : Char) : isJsSpace c.toLower = isJsSpace c := by
  unfold Char.toLower
  by_cases h : c.toNat ≥ 65 ∧ c.toNat ≤ 90
  · simp only [if_pos h]
    have h1 : (Char.ofNat (c.toNat + 32)).toNat = c.toNat + 32 :=
      charOfNat_toNat _ (by omega)
    have hl : isJsSpace (Char.ofNat (c.toNat + 32)) = false := by
      rw [← Bool.not_eq_true, isJsSpace_iff, h1]; omega
    have hr : isJsSpace c = false := by
      rw [← Bool.not_eq_true, isJsSpace_iff]; omega
    rw [hl, hr]
  · simp only [if_neg h]

theorem dropWhile_eq_self_of_all {p : Char → Bool} {s : List Char}
    (h : ∀ c ∈ s, p c = false) : s.dropWhile p = s := by
  cases s with
  | nil => rfl
  | cons a t =>
    rw [List.dropWhile_cons, h a (by simp)]
    simp

theorem jsTrim_eq_self {s : List Char} (h : ∀ c ∈ s, isJsSpace c = false) :
    jsTrim s = s := by
  unfold jsTrim
  rw [dropWhile_eq_self_of_all h, dropWhile_eq_self_of_all, List.reverse_reverse]
  intro c hc
  exact h c (List.mem_reverse.mp hc)

theorem stripSpaces_eq_self {s : List Char} (h : ∀ c ∈ s, isJsSpace c = false) :
    stripSpaces s = s := by
  unfold stripSpaces
  rw [List.filter_eq_self]
  intro c hc
  simp [h c hc]

theorem jsLower_eq_self {s : List Char} (h : ∀ c ∈ s, Char.toLower c = c) :
    jsLower s = s := by
  unfold jsLower
  induction s with
  | nil => rfl
  | cons a t ih =>
    rw [List.map_cons, h a (by simp), ih]
    intro c hc
    exact h c (by simp [hc])

theorem spacePhase_eq_self {s : List Char} (h : ∀ c ∈ s, charOK c) :
    spacePhase s = ⟨false, s⟩ := by
  have ht : jsTrim s = s := jsTrim_eq_self (fun c hc => (h c hc).1)
  have hl : jsLower s = s := jsLower_eq_self (fun c hc => (h c hc).2)
  have hs : stripSpaces s = s := stripSpaces_eq_self (fun c hc => (h c hc).1)
  simp only [spacePhase, ht, hl, hs, if_pos]

theorem charOK_spacePhase (x : List Char) :
    ∀ c ∈ (spacePhase x).email, charOK c := by
  intro c hc
  simp only [spacePhase] at hc
  have hmem : c ∈ stripSpaces (jsLower (jsTrim x)) ∨ c ∈ jsLower (jsTrim x) := by
    by_cases he : stripSpaces (jsLower (jsTrim x)) = jsLower (jsTrim x)
    · rw [if_pos he] at hc; exact Or.inr hc
    · rw [if_neg he] at hc; exact Or.inl hc
  have hlow : c ∈ jsLower (jsTrim x) → Char.toLower c = c := by
    intro hm
    obtain ⟨a, _, rfl⟩ := List.mem_map.mp hm
    exact toLower_toLower a
  cases hmem with
  | inl hm =>
    have hm2 := List.mem_filter.mp hm
    refine ⟨?_, hlow hm2.1⟩
    have := hm2.2
    simpa using this
  | inr hm =>
    refine ⟨?_, hlow hm⟩
    -- in this branch the filter removed nothing, so no whitespace remains
    by_cases he : stripSpaces (jsLower (jsTrim x)) = jsLower (jsTrim x)
    · have hall := List.filter_eq_self.mp he
      have := hall c hm
      simpa using this
    · -- contradiction: hc is in the filtered list in this branch
      rw [if_neg he] at hc
      have hm2 := List.mem_filter.mp hc
      simpa using hm2.2

theorem localOf_append {l : List Char} (r : List Char) (h : '@' ∉ l) :
    localOf (l ++ '@' :: r) = l := by
  unfold localOf
  induction l with
  | nil => simp
  | cons a t ih =>
    have ha : a ≠ '@' := fun he => h (by simp [he])
    rw [List.cons_append, List.takeWhile_cons]
    simp only [bne_iff_ne, ne_eq, ha, not_false_eq_true, decide_True, if_true]
    congr 1
    exact ih (fun hm => h (by simp [hm]))

theorem domainOf_append {l : List Char} (r : List Char) (h : '@' ∉ l) :
    domainOf (l ++ '@' :: r) = some (localOf r) := by
  unfold domainOf localOf
  induction l with
  | nil => simp
  | cons a t ih =>
    have ha : a ≠ '@' := fun he => h (by simp [he])
    rw [List.cons_append, List.dropWhile_cons]
    simp only [bne_iff_ne, ne_eq, ha, not_false_eq_true, decide_True, if_true]
    exact ih (fun hm => h (by simp [hm]))

theorem localOf_no_at (s : List Char) : '@' ∉ localOf s := by
  intro hm
  have := List.mem_takeWhile_imp hm
  simp at this

theorem localOf_sub (s : List Char) : ∀ c ∈ localOf s, c ∈ s :=
  fun c hc => (List.takeWhile_sublist _).mem hc

theorem domainOf_no_at {s d : List Char} (h : domainOf s = some d) : '@' ∉ d := by
  unfold domainOf at h
  intro hm
  rcases hr : s.dropWhile (fun c => c != '@') with _ | ⟨a, rest⟩
  · rw [hr] at h; simp at h
  · rw [hr] at h
    simp only [Option.some.injEq] at h
    subst h
    have := List.mem_takeWhile_imp hm
    simp at this

theorem domainOf_sub {s d : List Char} (h : domainOf s = some d) :
    ∀ c ∈ d, c ∈ s := by
  unfold domainOf at h
  intro c hc
  rcases hr : s.dropWhile (fun c => c != '@') with _ | ⟨a, rest⟩
  · rw [hr] at h; simp at h
  · rw [hr] at h
    simp only [Option.some.injEq] at h
    subst h
    have h1 : c ∈ rest := (List.takeWhile_sublist _).mem hc
    have h2 : c ∈ s.dropWhile (fun c => c != '@') := by rw [hr]; simp [h1]
    exact (List.dropWhile_sublist _).mem h2

theorem suffix_of_suffix_length_le {s1 s2 l : List Char}
    (h1 : s1 <:+ l) (h2 : s2 <:+ l) (hl : s1.length ≤ s2.length) : s1 <:+ s2 := by
  rw [← List.reverse_prefix] at h1 h2 ⊢
  exact List.prefix_of_prefix_length_le h1 h2 (by simpa using hl)

theorem localOf_eq_self {s : List Char} (h : '@' ∉ s) : localOf s = s := by
  unfold localOf
  induction s with
  | nil => rfl
  | cons a t ih =>
    have ha : a ≠ '@' := fun he => h (by simp [he])
    rw [List.takeWhile_cons]
    simp only [bne_iff_ne, ne_eq, ha, not_false_eq_true, decide_True, if_true]
    congr 1
    exact ih (fun hm => h (by simp [hm]))

theorem domainTypos_mem {d v : List Char} (h : domainTypos d = some v) :
    (d, v) ∈ domainTypoPairs := by
  unfold domainTypos at h
  rcases hf : domainTypoPairs.find? (fun p => p.1 == d) with _ | p
  · rw [hf] at h; simp at h
  · rw [hf] at h
    simp only [Option.map_some', Option.some.injEq] at h
    have hmem := List.mem_of_find?_eq_some hf
    have hpred := List.find?_some hf
    simp only [beq_iff_eq] at hpred
    rw [← hpred, ← h]
    exact hmem

theorem typo_values_ok : ∀ p ∈ domainTypoPairs,
    p.2 ≠ [] ∧ '@' ∉ p.2 ∧ (∀ c ∈ p.2, charOK c) ∧
    domainTypos p.2 = none ∧ tldScan australianTlds p.2 = none ∧
    tldScan australianTlds p.1 = none ∧ p.1 ≠ ("gmail.com".toList) := by
  decide

theorem gmail_ok : ("gmail.com".toList) ≠ ([] : List Char) ∧
    '@' ∉ ("gmail.com".toList) ∧ (∀ c ∈ ("gmail.com".toList), charOK c) ∧
    domainTypos ("gmail.com".toList) = none ∧
    tldScan australianTlds ("gmail.com".toList) = none := by
  decide

theorem tldScan_shape {tlds : List (List Char)} {dom D : List Char}
    (h : tldScan tlds dom = some D) :
    ∃ tld ∈ tlds, ∃ pre : List Char, D = pre ++ tld ∧ ∀ c ∈ pre, c ∈ dom := by
  unfold tldScan at h
  obtain ⟨tld, htld, hf⟩ := List.exists_of_findSome?_eq_some h
  refine ⟨tld, htld, ?_⟩
  dsimp only at hf
  split at hf
  · exact ⟨_, (Option.some.inj hf).symm,
      fun c hc => (List.take_sublist _ _).mem hc⟩
  · exact absurd hf (by simp)

theorem au_tlds_ok : ∀ tld ∈ australianTlds,
    tld ≠ [] ∧ '@' ∉ tld ∧ (∀ c ∈ tld, charOK c) ∧ (".au".toList) <:+ tld := by
  decide

theorem typo_keys_not_au : ∀ p ∈ domainTypoPairs, ¬ (".au".toList) <:+ p.1 := by
  decide

theorem not_suffix_of_au {D pat : List Char} (hau : (".au".toList) <:+ D)
    (hlen : 3 ≤ pat.length) (hpat : ¬ (".au".toList) <:+ pat) : ¬ pat <:+ D :=
  fun hs => hpat (suffix_of_suffix_length_le hau hs hlen)

theorem tldScan_of_au {D : List Char} (hau : (".au".toList) <:+ D) :
    tldScan australianTlds D = none := by
  unfold tldScan
  rw [List.findSome?_eq_none_iff]
  intro tld htld
  have hmem : tld = ".com.au".toList ∨ tld = ".net.au".toList ∨
      tld = ".org.au".toList ∨ tld = ".edu.au".toList ∨ tld = ".gov.au".toList ∨
      tld = ".asn.au".toList ∨ tld = ".id.au".toList ∨ tld = ".au".toList := by
    simpa [australianTlds] using htld
  have hmain : ∀ pat : List Char, ¬ pat <:+ D →
      ∀ t : List Char, (t.filter (fun c => c != '.') = pat) →
      (if (t.filter (fun c => c != '.')).isSuffixOf D && !t.isSuffixOf D then
        some (D.take (lastIndexOfA D (t.filter (fun c => c != '.'))).toNat ++ t)
      else none) = none := by
    intro pat hpat t ht
    rw [if_neg]
    intro hg
    rw [Bool.and_eq_true, List.isSuffixOf_iff_suffix, ht] at hg
    exact hpat hg.1
  rcases hmem with rfl | rfl | rfl | rfl | rfl | rfl | rfl | rfl
  · exact hmain ("comau".toList) (not_suffix_of_au hau (by decide) (by decide)) _ (by decide)
  · exact hmain ("netau".toList) (not_suffix_of_au hau (by decide) (by decide)) _ (by decide)
  · exact hmain ("orgau".toList) (not_suffix_of_au hau (by decide) (by decide)) _ (by decide)
  · exact hmain ("eduau".toList) (not_suffix_of_au hau (by decide) (by decide)) _ (by decide)
  · exact hmain ("govau".toList) (not_suffix_of_au hau (by decide) (by decide)) _ (by decide)
  · exact hmain ("asnau".toList) (not_suffix_of_au hau (by decide) (by decide)) _ (by decide)
  · exact hmain ("idau".toList) (not_suffix_of_au hau (by decide) (by decide)) _ (by decide)
  · -- tld = ".au": the dotted form itself is a suffix, so the guard fails
    rw [if_neg]
    intro hg
    rw [Bool.and_eq_true] at hg
    have := hg.2
    rw [Bool.not_eq_true', ← Bool.not_eq_true] at this
    exact this (List.isSuffixOf_iff_suffix.mpr hau)

theorem domainTypos_of_au {D : List Char} (hau : (".au".toList) <:+ D) :
    domainTypos D = none := by
  rcases hdt : domainTypos D with _ | v
  · rfl
  · exact absurd hau (typo_keys_not_au _ (domainTypos_mem hdt))

theorem ne_gmail_of_au {D : List Char} (hau : (".au".toList) <:+ D) :
    D ≠ ("gmail.com".toList) := by
  intro he
  subst he
  exact (by decide : ¬ (".au".toList) <:+ ("gmail.com".toList)) hau

theorem contains_iff_mem {l : List Char} {a : Char} : l.contains a = true ↔ a ∈ l := by
  simp [List.contains, List.elem_iff]

theorem V2_no_change (y : List Char) (hOK : ∀ c ∈ y, charOK c)
    (hg : ∀ d, domainOf y = some d → d ≠ [] →
      domainTypos d = none ∧
      ¬(d = ("gmail.com".toList) ∧ '+' ∈ localOf y) ∧
      tldScan australianTlds d = none) :
    V2.correctEmailTypos true true y = ⟨false, y⟩ := by
  by_cases hy : y = []
  · subst hy; rfl
  · have hsp := spacePhase_eq_self hOK
    rcases hdom : domainOf y with _ | d
    · simp only [V2.correctEmailTypos, if_neg hy, hsp, hdom]
      simp
    · by_cases hd : d = []
      · subst hd
        simp only [V2.correctEmailTypos, if_neg hy, hsp, hdom]
        simp
      · obtain ⟨ht, ha, hs⟩ := hg d hdom hd
        by_cases hdg : d = ("gmail.com".toList)
        · subst hdg
          have hnp : ('+' ∈ localOf y) → False := fun hm => ha ⟨rfl, hm⟩
          have hcont : (localOf y).contains '+' = false := by
            rw [← Bool.not_eq_true, contains_iff_mem]
            exact hnp
          simp only [V2.correctEmailTypos, if_neg hy, hsp, hdom, ht, hs, hcont]
          simp [hd]
        · have hbeq : (d == ("gmail.com".toList)) = false := by
            rw [beq_eq_false_iff_ne]
            exact hdg
          simp only [V2.correctEmailTypos, if_neg hy, hsp, hdom, ht, hs, hbeq]
          simp [hd]
          intro he
          exact absurd he hdg

theorem V2_shape_tld {x d D : List Char} (hx : x ≠ [])
    (hdom : domainOf (spacePhase x).email = some d) (hd : d ≠ [])
    (hscan : tldScan australianTlds d = some D) :
    V2.correctEmailTypos true true x =
      ⟨true, localOf (spacePhase x).email ++ '@' :: D⟩ := by
  simp only [V2.correctEmailTypos, if_neg hx, hdom, hscan]
  simp [hd]

theorem V2_shape_alias {x : List Char} (hx : x ≠ [])
    (hdom : domainOf (spacePhase x).email = some ("gmail.com".toList))
    (hscan : tldScan australianTlds ("gmail.com".toList) = none)
    (hplus : '+' ∈ localOf (spacePhase x).email) :
    V2.correctEmailTypos true true x =
      ⟨true, (localOf (spacePhase x).email).takeWhile (fun c => c != '+') ++
        '@' :: ("gmail.com".toList)⟩ := by
  have hcont : (localOf (spacePhase x).email).contains '+' = true :=
    contains_iff_mem.mpr hplus
  simp only [V2.correctEmailTypos, if_neg hx, hdom, hscan, hcont]
  simp

theorem V2_shape_typo {x d v : List Char} (hx : x ≠ [])
    (hdom : domainOf (spacePhase x).email = some d) (hd : d ≠ [])
    (hscan : tldScan australianTlds d = none)
    (hdg : d ≠ ("gmail.com".toList))
    (htypo : domainTypos d = some v) :
    V2.correctEmailTypos true true x =
      ⟨true, localOf (spacePhase x).email ++ '@' :: v⟩ := by
  have hbeq : (d == ("gmail.com".toList)) = false := beq_eq_false_iff_ne.mpr hdg
  simp only [V2.correctEmailTypos, if_neg hx, hdom, hscan, htypo, hbeq]
  simp [hd]
  intro he _
  exact absurd he hdg

theorem V2_shape_none {x d : List Char} (hx : x ≠ [])
    (hdom : domainOf (spacePhase x).email = some d) (hd : d ≠ [])
    (hscan : tldScan australianTlds d = none)
    (halias : ¬(d = ("gmail.com".toList) ∧ '+' ∈ localOf (spacePhase x).email))
    (htypo : domainTypos d = none) :
    V2.correctEmailTypos true true x = spacePhase x := by
  by_cases hdg : d = ("gmail.com".toList)
  · subst hdg
    have hnp : ('+' ∈ localOf (spacePhase x).email) → False := fun hm => halias ⟨rfl, hm⟩
    have hcont : (localOf (spacePhase x).email).contains '+' = false := by
      rw [← Bool.not_eq_true, contains_iff_mem]; exact hnp
    simp only [V2.correctEmailTypos, if_neg hx, hdom, hscan, htypo, hcont]
    simp [hd]
  · have hbeq : (d == ("gmail.com".toList)) = false := beq_eq_false_iff_ne.mpr hdg
    simp only [V2.correctEmailTypos, if_neg hx, hdom, hscan, htypo, hbeq]
    simp [hd]
    intro he _
    exact absurd he hdg

theorem V2_shape_nodom {x : List Char} (hx : x ≠ [])
    (hdom : domainOf (spacePhase x).email = none) :
    V2.correctEmailTypos true true x = spacePhase x := by
  simp only [V2.correctEmailTypos, if_neg hx, hdom]
  simp

theorem V2_shape_emptydom {x : List Char} (hx : x ≠ [])
    (hdom : domainOf (spacePhase x).email = some []) :
    V2.correctEmailTypos true true x = spacePhase x := by
  simp only [V2.correctEmailTypos, if_neg hx, hdom]
  simp

/-- C1 (amended): with alias-stripping and country-TLD normalization
enabled, the static Normalizer `correctEmailTypos` is idempotent — and the
second application reports no correction — for every input except those
where the domain-typo substitution rewrites the domain to `gmail.com` while
the local part contains a plus-alias; on those inputs the second
application additionally strips the alias. -/
theorem normalizer_idempotent_amended (x : List Char) (hex : typoExposesAlias x = false) :
    V2.correctEmailTypos true true ((V2.correctEmailTypos true true x).email) =
      ⟨false, (V2.correctEmailTypos true true x).email⟩ := by
  by_cases hx : x = []
  · subst hx; rfl
  · have hOK : ∀ c ∈ (spacePhase x).email, charOK c := charOK_spacePhase x
    have hat : charOK '@' := by decide
    rcases hdom : domainOf (spacePhase x).email with _ | d
    · -- no '@' in the cleaned string: nothing fires
      rw [V2_shape_nodom hx hdom]
      exact V2_no_change _ hOK (by intro d hd _; rw [hdom] at hd; cases hd)
    · by_cases hd : d = []
      · subst hd
        rw [V2_shape_emptydom hx hdom]
        refine V2_no_change _ hOK ?_
        intro d' hd' hne
        rw [hdom] at hd'
        cases hd'
        exact absurd rfl hne
      · have hdsub : ∀ c ∈ d, c ∈ (spacePhase x).email := domainOf_sub hdom
        have hdOK : ∀ c ∈ d, charOK c := fun c hc => hOK c (hdsub c hc)
        have hlOK : ∀ c ∈ localOf (spacePhase x).email, charOK c :=
          fun c hc => hOK c (localOf_sub _ c hc)
        have hlat : '@' ∉ localOf (spacePhase x).email := localOf_no_at _
        rcases hscan : tldScan australianTlds d with _ | D
        · -- no TLD repair fired
          by_cases halias : d = ("gmail.com".toList) ∧ '+' ∈ localOf (spacePhase x).email
          · -- gmail alias stripping fired
            obtain ⟨rfl, hplus⟩ := halias
            rw [V2_shape_alias hx hdom hscan hplus]
            obtain ⟨hgne, hgat, hgOK, hgtypo, hgscan⟩ := gmail_ok
            have hsub0 : ∀ c ∈ (localOf (spacePhase x).email).takeWhile (fun c => c != '+'),
                c ∈ localOf (spacePhase x).email :=
              fun c hc => (List.takeWhile_sublist _).mem hc
            have h0at : '@' ∉ (localOf (spacePhase x).email).takeWhile (fun c => c != '+') :=
              fun hc => hlat (hsub0 '@' hc)
            have hydom : domainOf ((localOf (spacePhase x).email).takeWhile (fun c => c != '+') ++
                '@' :: ("gmail.com".toList)) = some ("gmail.com".toList) := by
              rw [domainOf_append _ h0at, localOf_eq_self hgat]
            refine V2_no_change _ ?_ ?_
            · intro c hc
              rcases List.mem_append.mp hc with hc | hc
              · exact hlOK c (hsub0 c hc)
              · rcases List.mem_cons.mp hc with rfl | hc
                · exact hat
                · exact hgOK c hc
            · intro d' hd' hne
              rw [hydom] at hd'
              cases hd'
              refine ⟨hgtypo, ?_, hgscan⟩
              rintro ⟨-, hplus0⟩
              rw [localOf_append _ h0at] at hplus0
              have := List.mem_takeWhile_imp hplus0
              simp at this
          · rcases htypo : domainTypos d with _ | v
            · -- nothing fired at all
              rw [V2_shape_none hx hdom hd hscan halias htypo]
              refine V2_no_change _ hOK ?_
              intro d' hd' hne
              rw [hdom] at hd'
              cases hd'
              exact ⟨htypo, halias, hscan⟩
            · -- static typo substitution fired
              obtain ⟨hvne, hvat, hvOK, hvtypo, hvscan, -, hkg⟩ :=
                typo_values_ok _ (domainTypos_mem htypo)
              rw [V2_shape_typo hx hdom hd hscan hkg htypo]
              have hydom : domainOf (localOf (spacePhase x).email ++ '@' :: v) = some v := by
                rw [domainOf_append _ hlat, localOf_eq_self hvat]
              refine V2_no_change _ ?_ ?_
              · intro c hc
                rcases List.mem_append.mp hc with hc | hc
                · exact hlOK c hc
                · rcases List.mem_cons.mp hc with rfl | hc
                  · exact hat
                  · exact hvOK c hc
              · intro d' hd' hne
                rw [hydom] at hd'
                cases hd'
                refine ⟨hvtypo, ?_, hvscan⟩
                rintro ⟨hvg, hplus⟩
                -- this is exactly the excluded exposure case
                rw [localOf_append _ hlat] at hplus
                have hexpose : typoExposesAlias x = true := by
                  simp only [typoExposesAlias, hdom, htypo, hvg]
                  simp [hd, contains_iff_mem]
                  exact hplus
                rw [hexpose] at hex
                cases hex

        · -- Australian TLD repair fired: the new domain ends in .au
          -- Australian TLD repair fired: the new domain ends in ".au"
          obtain ⟨tld, htld, pre, hDeq, hpre⟩ := tldScan_shape hscan
          obtain ⟨-, htat, htOK, hau⟩ := au_tlds_ok tld htld
          have hauD : (".au".toList) <:+ D := by
            rw [hDeq]
            exact hau.trans (List.suffix_append pre tld)
          have hDOK : ∀ c ∈ D, charOK c := by
            intro c hc
            rw [hDeq] at hc
            rcases List.mem_append.mp hc with hc | hc
            · exact hOK c (hdsub c (hpre c hc))
            · exact htOK c hc
          have hDat : '@' ∉ D := by
            intro hc
            rw [hDeq] at hc
            rcases List.mem_append.mp hc with hc | hc
            · exact (domainOf_no_at hdom) (hpre '@' hc)
            · exact htat hc
          rw [V2_shape_tld hx hdom hd hscan]
          have hydom : domainOf (localOf (spacePhase x).email ++ '@' :: D) = some D := by
            rw [domainOf_append _ hlat, localOf_eq_self hDat]
          refine V2_no_change _ ?_ ?_
          · intro c hc
            rcases List.mem_append.mp hc with hc | hc
            · exact hlOK c hc
            · rcases List.mem_cons.mp hc with rfl | hc
              · exact hat
              · exact hDOK c hc
          · intro d' hd' hne
            rw [hydom] at hd'
            cases hd'
            exact ⟨domainTypos_of_au hauD,
              fun hco => ne_gmail_of_au hauD hco.1, tldScan_of_au hauD⟩
theorem V1_cases (x : List Char) (hx : x ≠ []) :
    V1.correctEmailTypos x = spacePhase x ∨
    ∃ d v, domainOf (spacePhase x).email = some d ∧ d ≠ [] ∧
      domainTypos d = some v ∧
      V1.correctEmailTypos x =
        ⟨true, localOf (spacePhase x).email ++ '@' :: v⟩ := by
  rcases hdom : domainOf (spacePhase x).email with _ | d
  · left
    simp only [V1.correctEmailTypos, if_neg hx, hdom]
  · by_cases hd : d = []
    · left
      subst hd
      simp only [V1.correctEmailTypos, if_neg hx, hdom]
      simp
    · rcases ht : domainTypos d with _ | v
      · left
        simp only [V1.correctEmailTypos, if_neg hx, hdom, ht]
        simp [hd]
      · right
        refine ⟨d, v, by simp [hdom], hd, ht, ?_⟩
        simp only [V1.correctEmailTypos, if_neg hx, hdom, ht]
        simp [hd]

theorem ne_of_mem_not_mem {a : Char} {l1 l2 : List Char}
    (h1 : a ∈ l1) (h2 : a ∉ l2) : l1 ≠ l2 :=
  fun he => h2 (he ▸ h1)

theorem V1_corrected_changes (x : List Char)
    (h : (V1.correctEmailTypos x).corrected = true) :
    (V1.correctEmailTypos x).email ≠ x := by
  by_cases hx : x = []
  · subst hx; cases h
  · have hOK := charOK_spacePhase x
    by_cases hsp : ∀ c ∈ x, isJsSpace c = false
    · -- no whitespace in the input: only the typo branch can set the flag
      have hTrim : jsTrim x = x := jsTrim_eq_self hsp
      have hLow : ∀ c ∈ jsLower x, isJsSpace c = false := by
        intro c hc
        obtain ⟨a, ha, rfl⟩ := List.mem_map.mp hc
        rw [isJsSpace_toLower]
        exact hsp a ha
      have hPhase : spacePhase x = ⟨false, jsLower x⟩ := by
        simp only [spacePhase, hTrim, stripSpaces_eq_self hLow, if_pos]
      rcases V1_cases x hx with hcase | ⟨d, v, hdom, hd, ht, hcase⟩
      · rw [hcase, hPhase] at h
        cases h
      · obtain ⟨hvne, hvat, hvOK, hvtypo, -, -, -⟩ :=
          typo_values_ok _ (domainTypos_mem ht)
        rw [hcase]
        intro hEq
        have hlat : '@' ∉ localOf (spacePhase x).email := localOf_no_at _
        have hxlow : ∀ c ∈ x, Char.toLower c = c := by
          intro c hc
          rw [← hEq] at hc
          rcases List.mem_append.mp hc with hc | hc
          · exact (hOK c (localOf_sub _ c hc)).2
          · rcases List.mem_cons.mp hc with rfl | hc
            · decide
            · exact (hvOK c hc).2
        have hc1 : (spacePhase x).email = x := by
          rw [hPhase, jsLower_eq_self hxlow]
        have hdomx : domainOf (spacePhase x).email = some v := by
          rw [hc1, ← hEq, domainOf_append _ hlat, localOf_eq_self hvat]
        rw [hdom] at hdomx
        cases hdomx
        rw [ht] at hvtypo
        cases hvtypo
    · -- the input has whitespace, the output never does
      push_neg at hsp
      obtain ⟨c, hcx, hcsp⟩ := hsp
      have hout : ∀ a ∈ (V1.correctEmailTypos x).email, isJsSpace a = false := by
        rcases V1_cases x hx with hcase | ⟨d, v, hdom, hd, ht, hcase⟩
        · rw [hcase]
          exact fun a ha => (hOK a ha).1
        · obtain ⟨-, -, hvOK, -, -, -, -⟩ := typo_values_ok _ (domainTypos_mem ht)
          rw [hcase]
          intro a ha
          rcases List.mem_append.mp ha with ha | ha
          · exact (hOK a (localOf_sub _ a ha)).1
          · rcases List.mem_cons.mp ha with rfl | ha
            · decide
            · exact (hvOK a ha).1
      intro hEq
      exact hcsp (hout c (by rw [hEq]; exact hcx))


/-- C1 witness: a typo-only correction, re-applied, is unchanged. -/
theorem normalizer_idempotent_amended_witness :
    typoExposesAlias ("user@gmial.com".toList) = false ∧
    V2.correctEmailTypos true true
        ((V2.correctEmailTypos true true ("user@gmial.com".toList)).email) =
      ⟨false, (V2.correctEmailTypos true true ("user@gmial.com".toList)).email⟩ :=
  ⟨by decide, normalizer_idempotent_amended _ (by decide)⟩

/-- C1 counterexample: `user+tag@gmail.cm` is first corrected only in its
domain (to `user+tag@gmail.com`); applying the Normalizer to that output
performs a further correction (alias stripping), so the Normalizer is not
idempotent as claimed. -/
theorem normalizer_idempotent_counterexample :
    (V2.correctEmailTypos true true ("user+tag@gmail.cm".toList)).email =
      ("user+tag@gmail.com".toList) ∧
    V2.correctEmailTypos true true ("user+tag@gmail.com".toList) =
      ⟨true, "user@gmail.com".toList⟩ ∧
    (V2.correctEmailTypos true true
        ((V2.correctEmailTypos true true ("user+tag@gmail.cm".toList)).email)).email ≠
      (V2.correctEmailTypos true true ("user+tag@gmail.cm".toList)).email := by
  decide

/-- C4 (amended): in the first validator variant, `wasCorrected = true`
implies that the returned address differs from the input; the converse
direction of the claimed equivalence is false, since trim/lowercase-only
changes leave `wasCorrected = false`. -/
theorem quickValidate_wasCorrected_implies_changed (email : List Char)
    (h : (V1.quickValidate email).wasCorrected = true) :
    (V1.quickValidate email).currentEmail ≠ (V1.quickValidate email).originalEmail := by
  by_cases hf : isValidEmailFormat email = false
  · simp only [V1.quickValidate, if_pos hf] at h
    cases h
  · simp only [V1.quickValidate, if_neg hf] at h ⊢
    exact V1_corrected_changes email h

/-- C4 witness: a domain-typo correction sets `wasCorrected` and changes
the address. -/
theorem quickValidate_wasCorrected_witness :
    (V1.quickValidate ("user@gmial.com".toList)).wasCorrected = true ∧
    (V1.quickValidate ("user@gmial.com".toList)).currentEmail ≠
      (V1.quickValidate ("user@gmial.com".toList)).originalEmail :=
  ⟨by decide, quickValidate_wasCorrected_implies_changed _ (by decide)⟩

/-- C4 counterexample: the claim fails in both of its parts.  The spec
scenario input (trailing whitespace) is rejected by the format gate before
any normalization, returning the input unchanged with `wasCorrected =
false`; and a case-only change (`Test@gmail.com`) yields a changed address
while `wasCorrected` stays `false`, refuting the claimed equivalence. -/
theorem quickValidate_wasCorrected_counterexample :
    ((V1.quickValidate ("Test@Gmail.com ".toList)).currentEmail =
        ("Test@Gmail.com ".toList) ∧
      (V1.quickValidate ("Test@Gmail.com ".toList)).wasCorrected = false ∧
      (V1.quickValidate ("Test@Gmail.com ".toList)).subStatus = some "bad_format") ∧
    ((V1.quickValidate ("Test@gmail.com".toList)).wasCorrected = false ∧
      (V1.quickValidate ("Test@gmail.com".toList)).currentEmail ≠
        (V1.quickValidate ("Test@gmail.com".toList)).originalEmail) := by
  decide

/-- C2: any address failing the format check makes `validateEmail` return
immediately with status `invalid`, subStatus `bad_format`, no recheck, the
current address equal to the input, the store untouched, and an empty
boundary trace — in particular no known-good cache lookup and no oracle
call. -/
theorem format_gate_short_circuit (cfg : P7.VCfg) (env : P7.VEnv) (store : P7.Store)
    (email : List Char) (opts : P7.VOptions)
    (h : isValidEmailFormat email = false) :
    P7.validateEmail cfg env store email opts =
      ({ originalEmail := email, currentEmail := email, formatValid := false,
         wasCorrected := false, status := "invalid",
         subStatus := some "bad_format", recheckNeeded := false,
         um_email := email, um_email_status := some "Unable to change",
         um_bounce_status := some "Likely to bounce" }, store, []) := by
  unfold P7.validateEmail P7.validateEmailF
  simp [P7.quickValidate, h]

/-- C2 witness: the spec scenario `not-an-email`. -/
theorem format_gate_short_circuit_witness :
    isValidEmailFormat ("not-an-email".toList) = false ∧
    P7.validateEmail P7.sampleCfg P7.sampleEnv P7.sampleStore
        ("not-an-email".toList) {} =
      ({ originalEmail := "not-an-email".toList,
         currentEmail := "not-an-email".toList, formatValid := false,
         wasCorrected := false, status := "invalid",
         subStatus := some "bad_format", recheckNeeded := false,
         um_email := "not-an-email".toList,
         um_email_status := some "Unable to change",
         um_bounce_status := some "Likely to bounce" }, P7.sampleStore, []) :=
  ⟨by decide, format_gate_short_circuit _ _ _ _ _ (by decide)⟩

theorem zbMapPayload_status (email : List Char) (rc : Nat) (p : P7.ZBPayload) :
    (P7.zbMapPayload email rc p).status = "valid" ∨
    (P7.zbMapPayload email rc p).status = "invalid" ∨
    (P7.zbMapPayload email rc p).status = "unknown" ∨
    (P7.zbMapPayload email rc p).status = "check_failed" := by
  unfold P7.zbMapPayload
  split_ifs <;> simp

theorem zbF_skipped_iff (cfg : P7.ZBCfg)
    (attempts : Nat → Except (List Char) P7.ZBPayload) (email : List Char) :
    ∀ fuel rc,
      ((P7.checkWithZeroBounceF cfg attempts email fuel rc).1.status = "check_skipped" ↔
        (cfg.apiKeyPresent = false ∨ cfg.useZeroBounceSetFalse = true)) := by
  intro fuel
  induction fuel with
  | zero =>
    intro rc
    unfold P7.checkWithZeroBounceF
    by_cases hoff : (!cfg.apiKeyPresent || cfg.useZeroBounceSetFalse) = true
    · rw [if_pos hoff]
      simp only [Bool.or_eq_true, Bool.not_eq_true'] at hoff
      simpa using hoff
    · rw [if_neg hoff]
      rw [Bool.not_eq_true, Bool.or_eq_false_iff, Bool.not_eq_false'] at hoff
      rcases ha : attempts rc with msg | p
      · simp only [ha]
        split_ifs <;> simp [P7.zbFailure, hoff.1, hoff.2]
      · simp only [ha]
        rcases zbMapPayload_status email rc p with h | h | h | h <;>
          simp [h, hoff.1, hoff.2]
  | succ n ih =>
    intro rc
    unfold P7.checkWithZeroBounceF
    by_cases hoff : (!cfg.apiKeyPresent || cfg.useZeroBounceSetFalse) = true
    · rw [if_pos hoff]
      simp only [Bool.or_eq_true, Bool.not_eq_true'] at hoff
      simpa using hoff
    · rw [if_neg hoff]
      rw [Bool.not_eq_true, Bool.or_eq_false_iff, Bool.not_eq_false'] at hoff
      rcases ha : attempts rc with msg | p
      · simp only [ha]
        by_cases hr : ((includesSub msg ("timeout".toList) ||
            includesSub msg ("network".toList)) && decide (rc < cfg.maxRetries)) = true
        · rw [if_pos hr]
          simpa using ih (rc + 1)
        · rw [if_neg hr]
          simp [P7.zbFailure, hoff.1, hoff.2]
      · simp only [ha]
        rcases zbMapPayload_status email rc p with h | h | h | h <;>
          simp [h, hoff.1, hoff.2]

/-- C10: `checkWithZeroBounce` returns status `check_skipped` with
`recheckNeeded = true` and source `configuration`, immediately and with no
HTTP attempt and no retry, exactly when the API key is missing or the
oracle is disabled by configuration; and no other execution path ever
produces the `check_skipped` status. -/
theorem check_skipped_iff_unconfigured (cfg : P7.ZBCfg)
    (attempts : Nat → Except (List Char) P7.ZBPayload) (email : List Char)
    (rc : Nat) :
    ((cfg.apiKeyPresent = false ∨ cfg.useZeroBounceSetFalse = true) →
      P7.checkWithZeroBounce cfg attempts email rc =
        ({ email := email, status := "check_skipped", recheckNeeded := true,
           source := some "configuration" }, [])) ∧
    ((P7.checkWithZeroBounce cfg attempts email rc).1.status = "check_skipped" ↔
      (cfg.apiKeyPresent = false ∨ cfg.useZeroBounceSetFalse = true)) := by
  constructor
  · intro hoff
    unfold P7.checkWithZeroBounce P7.checkWithZeroBounceF
    have : (!cfg.apiKeyPresent || cfg.useZeroBounceSetFalse) = true := by
      rcases hoff with h | h <;> simp [h]
    rw [if_pos this]
  · exact zbF_skipped_iff cfg attempts email _ rc

/-- C10 witness: with the API key missing, the check is skipped with no
attempt, and the iff holds. -/
theorem check_skipped_iff_unconfigured_witness :
    (({ apiKeyPresent := false, useZeroBounceSetFalse := false } : P7.ZBCfg).apiKeyPresent = false ∨
      ({ apiKeyPresent := false, useZeroBounceSetFalse := false } : P7.ZBCfg).useZeroBounceSetFalse = true) ∧
    P7.checkWithZeroBounce { apiKeyPresent := false, useZeroBounceSetFalse := false }
        P7.attempts5xx ("a@b.co".toList) 0 =
      ({ email := "a@b.co".toList, status := "check_skipped",
         recheckNeeded := true, source := some "configuration" }, []) :=
  ⟨Or.inl rfl,
    (check_skipped_iff_unconfigured _ P7.attempts5xx ("a@b.co".toList) 0).1 (Or.inl rfl)⟩

theorem zbMapPayload_failed_recheck (email : List Char) (rc : Nat) (p : P7.ZBPayload)
    (h : (P7.zbMapPayload email rc p).status = "check_failed") :
    (P7.zbMapPayload email rc p).recheckNeeded = true := by
  unfold P7.zbMapPayload at h ⊢
  split_ifs at h ⊢ <;> simp_all

theorem zbF_attempt_bound (cfg : P7.ZBCfg)
    (attempts : Nat → Except (List Char) P7.ZBPayload) (email : List Char) :
    ∀ fuel rc,
      P7.oracleAttemptCount (P7.checkWithZeroBounceF cfg attempts email fuel rc).2 ≤
        fuel + 1 := by
  intro fuel
  induction fuel with
  | zero =>
    intro rc
    unfold P7.checkWithZeroBounceF
    by_cases hoff : (!cfg.apiKeyPresent || cfg.useZeroBounceSetFalse) = true
    · rw [if_pos hoff]
      simp [P7.oracleAttemptCount]
    · rw [if_neg hoff]
      rcases ha : attempts rc with msg | p
      · simp only [ha]
        by_cases hr : ((includesSub msg ("timeout".toList) ||
            includesSub msg ("network".toList)) && decide (rc < cfg.maxRetries)) = true
        · rw [if_pos hr]
          simp [P7.oracleAttemptCount]
        · rw [if_neg hr]
          simp [P7.oracleAttemptCount]
      · simp only [ha]
        simp [P7.oracleAttemptCount]
  | succ n ih =>
    intro rc
    unfold P7.checkWithZeroBounceF
    by_cases hoff : (!cfg.apiKeyPresent || cfg.useZeroBounceSetFalse) = true
    · rw [if_pos hoff]
      simp [P7.oracleAttemptCount]
    · rw [if_neg hoff]
      rcases ha : attempts rc with msg | p
      · simp only [ha]
        by_cases hr : ((includesSub msg ("timeout".toList) ||
            includesSub msg ("network".toList)) && decide (rc < cfg.maxRetries)) = true
        · rw [if_pos hr]
          have := ih (rc + 1)
          simp [P7.oracleAttemptCount, List.countP_cons] at this ⊢
          omega
        · rw [if_neg hr]
          simp [P7.oracleAttemptCount]
      · simp only [ha]
        simp [P7.oracleAttemptCount]

theorem zbF_failed_recheck (cfg : P7.ZBCfg)
    (attempts : Nat → Except (List Char) P7.ZBPayload) (email : List Char) :
    ∀ fuel rc,
      (P7.checkWithZeroBounceF cfg attempts email fuel rc).1.status = "check_failed" →
      (P7.checkWithZeroBounceF cfg attempts email fuel rc).1.recheckNeeded = true := by
  intro fuel
  induction fuel with
  | zero =>
    intro rc h
    unfold P7.checkWithZeroBounceF at h ⊢
    by_cases hoff : (!cfg.apiKeyPresent || cfg.useZeroBounceSetFalse) = true
    · rw [if_pos hoff] at h ⊢
    · rw [if_neg hoff] at h ⊢
      rcases ha : attempts rc with msg | p
      · simp only [ha] at h ⊢
        by_cases hr : ((includesSub msg ("timeout".toList) ||
            includesSub msg ("network".toList)) && decide (rc < cfg.maxRetries)) = true
        · rw [if_pos hr] at h ⊢
          rfl
        · rw [if_neg hr] at h ⊢
          rfl
      · simp only [ha] at h ⊢
        exact zbMapPayload_failed_recheck email rc p h
  | succ n ih =>
    intro rc h
    unfold P7.checkWithZeroBounceF at h ⊢
    by_cases hoff : (!cfg.apiKeyPresent || cfg.useZeroBounceSetFalse) = true
    · rw [if_pos hoff] at h ⊢
    · rw [if_neg hoff] at h ⊢
      rcases ha : attempts rc with msg | p
      · simp only [ha] at h ⊢
        by_cases hr : ((includesSub msg ("timeout".toList) ||
            includesSub msg ("network".toList)) && decide (rc < cfg.maxRetries)) = true
        · rw [if_pos hr] at h ⊢
          exact ih (rc + 1) h
        · rw [if_neg hr] at h ⊢
          rfl
      · simp only [ha] at h ⊢
        exact zbMapPayload_failed_recheck email rc p h

/-- C5 (amended): the oracle client never throws (it is a total function
into result values); it makes at most `maxRetries - retryCount + 1` HTTP
attempts (one retry with the default `maxRetries = 1`); a failed attempt
whose error message mentions neither `timeout` nor `network` — such as a
5xx response, whose message is `ZeroBounce API error: <status> <text>` —
is not retried and yields `check_failed` directly; a retryable failure
waits the exponential backoff `min(1000·2^rc, 3000)` and re-enters the
check with the retry count incremented (the retry attempt then uses the
longer `tZeroBounceRetry` timeout, `8000 > 6000` at the defaults); and
every `check_failed` result carries `recheckNeeded = true`. -/
theorem oracle_retry_amended :
    (∀ (cfg : P7.ZBCfg) attempts (email : List Char) (rc : Nat),
      P7.oracleAttemptCount (P7.checkWithZeroBounce cfg attempts email rc).2 ≤
        (cfg.maxRetries - rc) + 1) ∧
    (∀ (cfg : P7.ZBCfg) attempts (email : List Char) (rc : Nat) (msg : List Char),
      cfg.apiKeyPresent = true → cfg.useZeroBounceSetFalse = false →
      attempts rc = .error msg →
      (includesSub msg ("timeout".toList) || includesSub msg ("network".toList)) = false →
      P7.checkWithZeroBounce cfg attempts email rc =
        (P7.zbFailure email msg rc,
         [P7.VEvent.oracleAttempt email
            (if rc > 0 then cfg.tZeroBounceRetry else cfg.tZeroBounce)])) ∧
    (∀ (cfg : P7.ZBCfg) attempts (email : List Char) (rc : Nat) (msg : List Char),
      cfg.apiKeyPresent = true → cfg.useZeroBounceSetFalse = false →
      attempts rc = .error msg →
      (includesSub msg ("timeout".toList) || includesSub msg ("network".toList)) = true →
      rc < cfg.maxRetries →
      P7.checkWithZeroBounce cfg attempts email rc =
        ((P7.checkWithZeroBounce cfg attempts email (rc + 1)).1,
         P7.VEvent.oracleAttempt email
             (if rc > 0 then cfg.tZeroBounceRetry else cfg.tZeroBounce) ::
           P7.VEvent.oracleBackoff (P7.zbBackoff rc) ::
           (P7.checkWithZeroBounce cfg attempts email (rc + 1)).2)) ∧
    (∀ (cfg : P7.ZBCfg) attempts (email : List Char) (rc : Nat),
      (P7.checkWithZeroBounce cfg attempts email rc).1.status = "check_failed" →
      (P7.checkWithZeroBounce cfg attempts email rc).1.recheckNeeded = true) ∧
    (P7.zbCfgOn.maxRetries = 1 ∧ P7.zbCfgOn.tZeroBounce < P7.zbCfgOn.tZeroBounceRetry) := by
  refine ⟨?_, ?_, ?_, ?_, by decide⟩
  · intro cfg attempts email rc
    exact zbF_attempt_bound cfg attempts email _ rc
  · intro cfg attempts email rc msg hk hz ha hm
    unfold P7.checkWithZeroBounce P7.checkWithZeroBounceF
    rw [if_neg (by simp [hk, hz])]
    simp only [ha]
    rw [Bool.or_eq_false_iff] at hm
    have hm1 : includesSub msg ['t', 'i', 'm', 'e', 'o', 'u', 't'] = false := hm.1
    have hm2 : includesSub msg ['n', 'e', 't', 'w', 'o', 'r', 'k'] = false := hm.2
    rw [if_neg (by simp [hm1, hm2])]
  · intro cfg attempts email rc msg hk hz ha hm hlt
    obtain ⟨n, hn⟩ : ∃ n, cfg.maxRetries - rc = n + 1 :=
      ⟨cfg.maxRetries - rc - 1, by omega⟩
    unfold P7.checkWithZeroBounce
    rw [hn]
    have hn2 : cfg.maxRetries - (rc + 1) = n := by omega
    rw [hn2]
    conv_lhs => rw [P7.checkWithZeroBounceF]
    rw [if_neg (by simp [hk, hz])]
    simp only [ha]
    rw [Bool.or_eq_true] at hm
    rw [if_pos (by simp [hlt]; exact hm)]
  · intro cfg attempts email rc
    exact zbF_failed_recheck cfg attempts email _ rc

/-- C5 witness: a first-attempt timeout with the default configuration is
retried after the 1000 ms backoff, and an all-timeouts run ends in
`check_failed` with `recheckNeeded = true`. -/
theorem oracle_retry_amended_witness :
    P7.checkWithZeroBounce P7.zbCfgOn P7.attemptsTimeout ("a@b.co".toList) 0 =
      ((P7.checkWithZeroBounce P7.zbCfgOn P7.attemptsTimeout ("a@b.co".toList) 1).1,
       P7.VEvent.oracleAttempt ("a@b.co".toList) P7.zbCfgOn.tZeroBounce ::
         P7.VEvent.oracleBackoff (P7.zbBackoff 0) ::
         (P7.checkWithZeroBounce P7.zbCfgOn P7.attemptsTimeout ("a@b.co".toList) 1).2) ∧
    (P7.checkWithZeroBounce P7.zbCfgOn P7.attemptsTimeout ("a@b.co".toList) 0).1.recheckNeeded = true := by
  constructor
  · have h := oracle_retry_amended.2.2.1 P7.zbCfgOn P7.attemptsTimeout
      ("a@b.co".toList) 0 ("ZeroBounce check timeout".toList) rfl rfl rfl
      (by decide) (by decide)
    simpa using h
  · exact oracle_retry_amended.2.2.2.1 P7.zbCfgOn P7.attemptsTimeout
      ("a@b.co".toList) 0 (by decide)

/-- C5 counterexample: a 5xx-class failure is not retried.  With the
default configuration, a first attempt failing with the 5xx error message
and a second attempt that would succeed, the client still makes exactly
one HTTP attempt, performs no backoff, and returns `check_failed` — the
claimed retry-with-backoff on 5xx does not happen. -/
theorem oracle_retry_counterexample :
    P7.attempts5xx 0 =
      .error ("ZeroBounce API error: 500 Internal Server Error".toList) ∧
    P7.attempts5xx 1 = .ok { status := "valid" } ∧
    (P7.checkWithZeroBounce P7.zbCfgOn P7.attempts5xx ("a@b.co".toList) 0).1.status =
      "check_failed" ∧
    (P7.checkWithZeroBounce P7.zbCfgOn P7.attempts5xx ("a@b.co".toList) 0).2 =
      [P7.VEvent.oracleAttempt ("a@b.co".toList) 6000] := by
  decide

theorem filter_map_comm {α : Type} (f : α → α) (p : α → Bool) (l : List α)
    (h : ∀ x ∈ l, p (f x) = p x) :
    (l.map f).filter p = (l.filter p).map f := by
  induction l with
  | nil => rfl
  | cons a t ih =>
    rw [List.map_cons, List.filter_cons, List.filter_cons, h a (by simp)]
    cases hpa : p a <;> simp [ih (fun x hx => h x (by simp [hx]))]

theorem pairwise_id_unique {l : List P7.VRecord} {r x : P7.VRecord}
    (hp : l.Pairwise (fun a b => a.id ≠ b.id)) (hr : r ∈ l) (hx : x ∈ l)
    (hid : x.id = r.id) : x = r := by
  by_contra hne
  have hforall := List.Pairwise.forall (fun a b hab => hab.symm) hp
  exact hforall hx hr hne hid

theorem save_insert_shape (cfg : P7.VCfg) (store : P7.Store) (email : List Char)
    (vr : P7.VResult) (hv : vr.status = "valid") (hen : cfg.supabaseEnabled = true)
    (hconn : cfg.connectionStatus = "connected")
    (hlen : store.validations.filter (fun r => r.email == email) = []) :
    ∃ nr : P7.VRecord, nr.email = email ∧ nr.id = store.nextId + 1 ∧
      (P7.saveValidationResult cfg store email vr).2.validations =
        store.validations ++ [nr] ∧
      (P7.saveValidationResult cfg store email vr).2.nextId = store.nextId + 2 ∧
      (P7.saveValidationResult cfg store email vr).1.operation = some "insert" := by
  simp only [P7.saveValidationResult, hv, hen, hconn, hlen]
  simp

theorem save_update_shape (cfg : P7.VCfg) (store : P7.Store) (email : List Char)
    (vr : P7.VResult) (r : P7.VRecord)
    (hv : vr.status = "valid") (hen : cfg.supabaseEnabled = true)
    (hconn : cfg.connectionStatus = "connected")
    (hlen : store.validations.filter (fun x => x.email == email) = [r]) :
    ∃ upd : P7.VRecord, upd.email = r.email ∧ upd.id = r.id ∧
      (P7.saveValidationResult cfg store email vr).2.validations =
        store.validations.map (fun x => if x.id == r.id then upd else x) ∧
      (P7.saveValidationResult cfg store email vr).2.nextId = store.nextId ∧
      (P7.saveValidationResult cfg store email vr).1.operation = some "update" := by
  refine ⟨{ r with
            um_email := P7.saveUmEmail vr email,
            um_email_status := P7.saveEmailStatus vr,
            um_bounce_status := P7.saveBounceStatus vr,
            um_check_id := vr.um_check_id.getD cfg.genCheckId }, rfl, rfl, ?_, ?_, ?_⟩ <;>
    simp [P7.saveValidationResult, hv, hen, hconn, hlen]

/-- C7: the persistence writer is an idempotent upsert keyed by the
address: starting from a well-formed store holding at most one validation
row for the address, a successful save leaves exactly one row for it, a
second save with the same inputs still leaves exactly one row, and that
second save is an in-place update. -/
theorem persistence_idempotent_upsert (cfg : P7.VCfg) (store : P7.Store)
    (email : List Char) (vr : P7.VResult) (hwf : store.WF)
    (hen : cfg.supabaseEnabled = true) (hconn : cfg.connectionStatus = "connected")
    (hv : vr.status = "valid")
    (hcount : (store.validations.filter (fun r => r.email == email)).length ≤ 1) :
    (((P7.saveValidationResult cfg store email vr).2.validations.filter
        (fun r => r.email == email)).length = 1) ∧
    (((P7.saveValidationResult cfg (P7.saveValidationResult cfg store email vr).2
        email vr).2.validations.filter (fun r => r.email == email)).length = 1) ∧
    (P7.saveValidationResult cfg (P7.saveValidationResult cfg store email vr).2
        email vr).1.operation = some "update" := by
  rcases hsplit : store.validations.filter (fun r => r.email == email) with _ | ⟨r, rest⟩
  · -- no existing row: insert, then update
    obtain ⟨nr, hnre, hnrid, hval1, hnext1, hop1⟩ :=
      save_insert_shape cfg store email vr hv hen hconn hsplit
    have hfilter1 : (P7.saveValidationResult cfg store email vr).2.validations.filter
        (fun x => x.email == email) = [nr] := by
      rw [hval1, List.filter_append, hsplit]
      simp [hnre]
    obtain ⟨upd, hupde, hupdid, hval2, hnext2, hop2⟩ :=
      save_update_shape cfg _ email vr nr hv hen hconn hfilter1
    refine ⟨by rw [hfilter1]; rfl, ?_, hop2⟩
    have hpreserve : ∀ x ∈ (P7.saveValidationResult cfg store email vr).2.validations,
        ((if x.id == nr.id then upd else x).email == email) = (x.email == email) := by
      intro x hx
      by_cases hid : (x.id == nr.id) = true
      · have hxid : x.id = nr.id := by simpa using hid
        rw [hval1] at hx
        rcases List.mem_append.mp hx with hx | hx
        · have hlt := hwf.2 x hx
          rw [hnrid] at hxid
          omega
        · have hxn : x = nr := by simpa using hx
          subst hxn
          simp [hid, hupde]
      · simp only [Bool.not_eq_true] at hid
        simp [hid]
    rw [hval2, filter_map_comm _ _ _ hpreserve, hfilter1]
    simp
  · -- one existing row: update twice
    have hrest : rest = [] := by
      rw [hsplit] at hcount
      simpa using hcount
    subst hrest
    have hrfil : r ∈ store.validations.filter (fun x => x.email == email) := by
      rw [hsplit]
      exact List.mem_singleton.mpr rfl
    have hrmem : r ∈ store.validations := (List.mem_filter.mp hrfil).1
    have hremail : (r.email == email) = true := by
      have h2 := (List.mem_filter.mp hrfil).2
      simpa using h2
    obtain ⟨upd, hupde, hupdid, hval1, hnext1, hop1⟩ :=
      save_update_shape cfg store email vr r hv hen hconn hsplit
    have hpreserve1 : ∀ x ∈ store.validations,
        ((if x.id == r.id then upd else x).email == email) = (x.email == email) := by
      intro x hx
      by_cases hid : (x.id == r.id) = true
      · have hxid : x.id = r.id := by simpa using hid
        have hxr : x = r := pairwise_id_unique hwf.1 hrmem hx hxid
        subst hxr
        simp [hid, hupde]
      · simp only [Bool.not_eq_true] at hid
        simp [hid]
    have hfilter1 : (P7.saveValidationResult cfg store email vr).2.validations.filter
        (fun x => x.email == email) = [upd] := by
      rw [hval1, filter_map_comm _ _ _ hpreserve1, hsplit]
      simp [hupde, hremail]
    obtain ⟨upd2, hupd2e, hupd2id, hval2, hnext2, hop2⟩ :=
      save_update_shape cfg _ email vr upd hv hen hconn hfilter1
    refine ⟨by rw [hfilter1]; rfl, ?_, hop2⟩
    have hidpres : ∀ x ∈ store.validations, (if x.id == r.id then upd else x).id = x.id := by
      intro x hx
      by_cases hid : (x.id == r.id) = true
      · have hxid : x.id = r.id := by simpa using hid
        rw [if_pos hid, hupdid, hxid]
      · rw [if_neg (by simpa using hid)]
    have hp1 : (P7.saveValidationResult cfg store email vr).2.validations.Pairwise
        (fun a b => a.id ≠ b.id) := by
      rw [hval1, List.pairwise_map]
      refine List.Pairwise.imp_of_mem ?_ hwf.1
      intro a b ha hb hab
      rw [hidpres a ha, hidpres b hb]
      exact hab
    have hupdfil : upd ∈ (P7.saveValidationResult cfg store email vr).2.validations.filter
        (fun x => x.email == email) := by
      rw [hfilter1]
      exact List.mem_singleton.mpr rfl
    have hupdmem : upd ∈ (P7.saveValidationResult cfg store email vr).2.validations :=
      (List.mem_filter.mp hupdfil).1
    have hpreserve2 : ∀ x ∈ (P7.saveValidationResult cfg store email vr).2.validations,
        ((if x.id == upd.id then upd2 else x).email == email) = (x.email == email) := by
      intro x hx
      by_cases hid : (x.id == upd.id) = true
      · have hxid : x.id = upd.id := by simpa using hid
        have hxr : x = upd := pairwise_id_unique hp1 hupdmem hx hxid
        subst hxr
        simp [hid, hupd2e]
      · simp only [Bool.not_eq_true] at hid
        simp [hid]
    rw [hval2, filter_map_comm _ _ _ hpreserve2, hfilter1]
    simp

/-- C7 witness: saving a valid result twice into an empty store leaves a
single row for the address, the second call being an update. -/
theorem persistence_idempotent_upsert_witness :
    (((P7.saveValidationResult P7.cfgFull P7.sampleStore ("a@b.co".toList)
        P7.sampleValidResult).2.validations.filter
        (fun r => r.email == ("a@b.co".toList))).length = 1) ∧
    (((P7.saveValidationResult P7.cfgFull
        (P7.saveValidationResult P7.cfgFull P7.sampleStore ("a@b.co".toList)
          P7.sampleValidResult).2 ("a@b.co".toList)
        P7.sampleValidResult).2.validations.filter
        (fun r => r.email == ("a@b.co".toList))).length = 1) ∧
    (P7.saveValidationResult P7.cfgFull
        (P7.saveValidationResult P7.cfgFull P7.sampleStore ("a@b.co".toList)
          P7.sampleValidResult).2 ("a@b.co".toList)
        P7.sampleValidResult).1.operation = some "update" :=
  persistence_idempotent_upsert P7.cfgFull P7.sampleStore ("a@b.co".toList)
    P7.sampleValidResult ⟨by decide, by decide⟩ rfl rfl rfl (by decide)


theorem saveStatuses_append (a b : List P7.VEvent) :
    P7.saveStatuses (a ++ b) = P7.saveStatuses a ++ P7.saveStatuses b := by
  unfold P7.saveStatuses
  rw [List.filterMap_append]

theorem recurseCount_append (a b : List P7.VEvent) :
    P7.recurseCount (a ++ b) = P7.recurseCount a + P7.recurseCount b := by
  unfold P7.recurseCount
  rw [List.countP_append]

theorem zbF_events (cfg : P7.ZBCfg)
    (attempts : Nat → Except (List Char) P7.ZBPayload) (email : List Char) :
    ∀ fuel rc,
      P7.saveStatuses (P7.checkWithZeroBounceF cfg attempts email fuel rc).2 = [] ∧
      P7.recurseCount (P7.checkWithZeroBounceF cfg attempts email fuel rc).2 = 0 := by
  intro fuel
  induction fuel with
  | zero =>
    intro rc
    unfold P7.checkWithZeroBounceF
    by_cases hoff : (!cfg.apiKeyPresent || cfg.useZeroBounceSetFalse) = true
    · rw [if_pos hoff]
      exact ⟨rfl, rfl⟩
    · rw [if_neg hoff]
      rcases ha : attempts rc with msg | p
      · simp only [ha]
        by_cases hr : ((includesSub msg ("timeout".toList) ||
            includesSub msg ("network".toList)) && decide (rc < cfg.maxRetries)) = true
        · rw [if_pos hr]
          exact ⟨rfl, rfl⟩
        · rw [if_neg hr]
          exact ⟨rfl, rfl⟩
      · simp only [ha]
        exact ⟨rfl, rfl⟩
  | succ n ih =>
    intro rc
    unfold P7.checkWithZeroBounceF
    by_cases hoff : (!cfg.apiKeyPresent || cfg.useZeroBounceSetFalse) = true
    · rw [if_pos hoff]
      exact ⟨rfl, rfl⟩
    · rw [if_neg hoff]
      rcases ha : attempts rc with msg | p
      · simp only [ha]
        by_cases hr : ((includesSub msg ("timeout".toList) ||
            includesSub msg ("network".toList)) && decide (rc < cfg.maxRetries)) = true
        · rw [if_pos hr]
          have := ih (rc + 1)
          simp only [P7.saveStatuses, P7.recurseCount, List.filterMap_cons,
            List.countP_cons] at this ⊢
          simpa using this
        · rw [if_neg hr]
          exact ⟨rfl, rfl⟩
      · simp only [ha]
        exact ⟨rfl, rfl⟩

theorem finishSave_fst (cfg : P7.VCfg) (store : P7.Store) (email : List Char)
    (r : P7.VResult) (evs : List P7.VEvent) :
    (P7.finishSave cfg store email r evs).1 = r := by
  unfold P7.finishSave
  split_ifs <;> rfl

theorem finishSave_store_of_ne (cfg : P7.VCfg) (store : P7.Store) (email : List Char)
    (r : P7.VResult) (evs : List P7.VEvent) (h : r.status ≠ "valid") :
    (P7.finishSave cfg store email r evs).2.1 = store := by
  unfold P7.finishSave
  split_ifs with hc
  · exact absurd hc.2 h
  · rfl

theorem finishSave_saves (cfg : P7.VCfg) (store : P7.Store) (email : List Char)
    (r : P7.VResult) (evs : List P7.VEvent) :
    ∀ st ∈ P7.saveStatuses (P7.finishSave cfg store email r evs).2.2,
      st ∈ P7.saveStatuses evs ∨ st = "valid" := by
  unfold P7.finishSave
  split_ifs with hc
  · intro st hst
    rw [saveStatuses_append] at hst
    rcases List.mem_append.mp hst with hst | hst
    · exact Or.inl hst
    · right
      simp only [P7.saveStatuses, List.filterMap_cons] at hst
      rw [hc.2] at hst
      simpa using hst
  · intro st hst
    exact Or.inl hst

theorem finishSave_recurse (cfg : P7.VCfg) (store : P7.Store) (email : List Char)
    (r : P7.VResult) (evs : List P7.VEvent) :
    P7.recurseCount (P7.finishSave cfg store email r evs).2.2 =
      P7.recurseCount evs := by
  unfold P7.finishSave
  split_ifs
  · rw [recurseCount_append]
    rfl
  · rfl

theorem quickValidate_originalEmail (cfg : P7.VCfg) (env : P7.VEnv) (email : List Char) :
    (P7.quickValidate cfg env email).originalEmail = email := by
  simp only [P7.quickValidate]
  split_ifs <;> rfl

theorem adoptZB_fields (r : P7.VResult) (bc : P7.ZBOut) :
    (P7.adoptZB r bc).originalEmail = r.originalEmail := by
  unfold P7.adoptZB
  split_ifs <;> rfl

theorem adoptKnown_originalEmail (q : P7.VResult) (k : P7.KnownRec) :
    (P7.adoptKnown q k).originalEmail = q.originalEmail := rfl

theorem finishSave_originalEmail (cfg : P7.VCfg) (store : P7.Store)
    (email : List Char) (r : P7.VResult) (evs : List P7.VEvent) :
    (P7.finishSave cfg store email r evs).1.originalEmail = r.originalEmail := by
  rw [finishSave_fst]

set_option maxRecDepth 8000 in
theorem validateEmailF_originalEmail (cfg : P7.VCfg) (env : P7.VEnv) :
    ∀ fuel store email opts,
      (P7.validateEmailF cfg env fuel store email opts).1.originalEmail = email := by
  intro fuel
  induction fuel with
  | zero =>
    intro store email opts
    simp only [P7.validateEmailF]
    repeat' split
    all_goals try rfl
    all_goals try exact quickValidate_originalEmail cfg env email
    all_goals rw [finishSave_originalEmail]
    all_goals try rw [adoptZB_fields]
    all_goals try rw [adoptKnown_originalEmail]
    all_goals exact quickValidate_originalEmail cfg env email
  | succ n ih =>
    intro store email opts
    rw [P7.validateEmailF]
    dsimp only
    repeat' split
    all_goals try rfl
    all_goals try exact quickValidate_originalEmail cfg env email
    all_goals try rw [finishSave_originalEmail]
    all_goals try rw [adoptZB_fields]
    all_goals try rw [adoptKnown_originalEmail]
    all_goals try exact quickValidate_originalEmail cfg env email

theorem zb_events (cfg : P7.ZBCfg) (attempts : Nat → Except (List Char) P7.ZBPayload)
    (email : List Char) (rc : Nat) :
    P7.saveStatuses (P7.checkWithZeroBounce cfg attempts email rc).2 = [] ∧
    P7.recurseCount (P7.checkWithZeroBounce cfg attempts email rc).2 = 0 :=
  zbF_events cfg attempts email (cfg.maxRetries - rc) rc

theorem saveStatuses_cons_kgl (cur : List Char) (l : List P7.VEvent) :
    P7.saveStatuses (P7.VEvent.knownGoodLookup cur :: l) = P7.saveStatuses l := rfl

theorem recurseCount_cons_kgl (cur : List Char) (l : List P7.VEvent) :
    P7.recurseCount (P7.VEvent.knownGoodLookup cur :: l) = P7.recurseCount l := by
  simp [P7.recurseCount, List.countP_cons]

set_option maxRecDepth 4000 in
theorem validateEmailF_master (cfg : P7.VCfg) (env : P7.VEnv) :
    ∀ fuel store email opts,
      ((P7.validateEmailF cfg env fuel store email opts).1.status ≠ "valid" →
        (P7.validateEmailF cfg env fuel store email opts).2.1 = store) ∧
      (∀ st ∈ P7.saveStatuses (P7.validateEmailF cfg env fuel store email opts).2.2,
        st = "valid") ∧
      P7.recurseCount (P7.validateEmailF cfg env fuel store email opts).2.2 ≤ fuel := by
  intro fuel
  induction fuel using Nat.strong_induction_on with
  | _ fuel ih =>
  intro store email opts
  rw [P7.validateEmailF]
  dsimp only
  by_cases h1 : (P7.quickValidate cfg env email).formatValid = false
  · rw [if_pos h1]
    exact ⟨fun _ => rfl, by simp [P7.saveStatuses], by simp [P7.recurseCount]⟩
  rw [if_neg h1]
  by_cases h2 : (P7.quickValidate cfg env email).isInvalidDomain = true
  · rw [if_pos h2]
    exact ⟨fun _ => rfl, by simp [P7.saveStatuses], by simp [P7.recurseCount]⟩
  rw [if_neg h2]
  by_cases h3 : env.timesOut email = true
  · rw [if_pos h3]
    by_cases h4 : cfg.supabaseEnabled = true ∧ (P7.quickValidate cfg env email).status = "valid"
    · rw [if_pos h4]
      refine ⟨fun hne => absurd h4.2 hne, ?_, ?_⟩
      · intro st hst
        simp [P7.saveStatuses] at hst
        rw [hst, h4.2]
      · simp [P7.recurseCount, List.countP_cons]
    · rw [if_neg h4]
      exact ⟨fun _ => rfl, by simp [P7.saveStatuses], by simp [P7.recurseCount]⟩
  rw [if_neg h3]
  by_cases hskip : opts.skipZeroBounce = true
  · rw [if_pos hskip]
    dsimp only
    have hS : P7.saveStatuses
        [P7.VEvent.knownGoodLookup (P7.quickValidate cfg env email).currentEmail] = [] := rfl
    have hR : P7.recurseCount
        [P7.VEvent.knownGoodLookup (P7.quickValidate cfg env email).currentEmail] = 0 := by
      simp [P7.recurseCount, List.countP_cons]
    rcases hknown : env.knownData (P7.quickValidate cfg env email).currentEmail with _ | k
    · dsimp only
      rw [if_neg Bool.false_ne_true]
      refine ⟨fun hne => finishSave_store_of_ne _ _ _ _ _
          (fun hv => hne (by rw [finishSave_fst]; exact hv)), ?_, ?_⟩
      · intro st hst
        rcases finishSave_saves _ _ _ _ _ st hst with h | h
        · rw [hS] at h
          exact absurd h (List.not_mem_nil st)
        · exact h
      · rw [finishSave_recurse, hR]
        exact Nat.zero_le _
    · dsimp only
      by_cases hfresh : P7.freshHit env k = true
      · rw [if_pos hfresh]
        refine ⟨fun _ => rfl, ?_, ?_⟩
        · intro st hst
          rw [hS] at hst
          exact absurd hst (List.not_mem_nil st)
        · rw [hR]
          exact Nat.zero_le _
      · rw [if_neg hfresh]
        refine ⟨fun hne => finishSave_store_of_ne _ _ _ _ _
            (fun hv => hne (by rw [finishSave_fst]; exact hv)), ?_, ?_⟩
        · intro st hst
          rcases finishSave_saves _ _ _ _ _ st hst with h | h
          · rw [hS] at h
            exact absurd h (List.not_mem_nil st)
          · exact h
        · rw [finishSave_recurse, hR]
          exact Nat.zero_le _

  · rw [if_neg hskip]
    dsimp only
    have hS : P7.saveStatuses
        (P7.VEvent.knownGoodLookup (P7.quickValidate cfg env email).currentEmail ::
          (P7.checkWithZeroBounce cfg.zb
            (env.zbAttempts (P7.quickValidate cfg env email).currentEmail)
            (P7.quickValidate cfg env email).currentEmail opts.retryCount).2) = [] := by
      rw [saveStatuses_cons_kgl]
      exact (zb_events _ _ _ _).1
    have hR : P7.recurseCount
        (P7.VEvent.knownGoodLookup (P7.quickValidate cfg env email).currentEmail ::
          (P7.checkWithZeroBounce cfg.zb
            (env.zbAttempts (P7.quickValidate cfg env email).currentEmail)
            (P7.quickValidate cfg env email).currentEmail opts.retryCount).2) = 0 := by
      rw [recurseCount_cons_kgl]
      exact (zb_events _ _ _ _).2
    rcases hknown2 : env.knownData (P7.quickValidate cfg env email).currentEmail with _ | k
    · dsimp only
      rw [if_neg Bool.false_ne_true]
      rcases hsug : (P7.checkWithZeroBounce cfg.zb
          (env.zbAttempts (P7.quickValidate cfg env email).currentEmail)
          (P7.quickValidate cfg env email).currentEmail opts.retryCount).1.suggestedEmail with _ | sug
      · dsimp only
        refine ⟨fun hne => finishSave_store_of_ne _ _ _ _ _
            (fun hv => hne (by rw [finishSave_fst]; exact hv)), ?_, ?_⟩
        · intro st hst
          rcases finishSave_saves _ _ _ _ _ st hst with h | h
          · rw [hS] at h
            exact absurd h (List.not_mem_nil st)
          · exact h
        · rw [finishSave_recurse, hR]
          exact Nat.zero_le _
      · dsimp only
        by_cases hretry : opts.isRetry = false
        · rw [if_pos hretry]
          by_cases hbad : P7.checkInvalidDomain cfg env (domainOf sug) = true
          · rw [if_pos hbad]
            refine ⟨fun _ => rfl, ?_, ?_⟩
            · intro st hst
              rw [hS] at hst
              exact absurd hst (List.not_mem_nil st)
            · rw [hR]
              exact Nat.zero_le _
          · rw [if_neg hbad]
            rcases fuel with _ | n
            · dsimp only
              refine ⟨fun hne => finishSave_store_of_ne _ _ _ _ _
                  (fun hv => hne (by rw [finishSave_fst]; exact hv)), ?_, ?_⟩
              · intro st hst
                rcases finishSave_saves _ _ _ _ _ st hst with h | h
                · rw [hS] at h
                  exact absurd h (List.not_mem_nil st)
                · exact h
              · rw [finishSave_recurse, hR]
            · dsimp only
              have hin := ih n (Nat.lt_succ_self n) store sug
                { skipZeroBounce := false, timeoutMs := opts.timeoutMs * 4 / 5,
                  isRetry := true, retryCount := 0 }
              refine ⟨fun hne => hin.1 hne, ?_, ?_⟩
              · intro st hst
                have hx : P7.saveStatuses
                    [P7.VEvent.recurse sug (opts.timeoutMs * 4 / 5) true] = [] := rfl
                rw [saveStatuses_append, saveStatuses_append, hS, hx] at hst
                simp only [List.nil_append] at hst
                exact hin.2.1 st hst
              · have hx : P7.recurseCount
                    [P7.VEvent.recurse sug (opts.timeoutMs * 4 / 5) true] = 1 := by
                  simp [P7.recurseCount, List.countP_cons]
                rw [recurseCount_append, recurseCount_append, hR, hx]
                have := hin.2.2
                omega
        · rw [if_neg hretry]
          refine ⟨fun hne => finishSave_store_of_ne _ _ _ _ _
              (fun hv => hne (by rw [finishSave_fst]; exact hv)), ?_, ?_⟩
          · intro st hst
            rcases finishSave_saves _ _ _ _ _ st hst with h | h
            · rw [hS] at h
              exact absurd h (List.not_mem_nil st)
            · exact h
          · rw [finishSave_recurse, hR]
            exact Nat.zero_le _
    · dsimp only
      by_cases hfresh : P7.freshHit env k = true
      · rw [if_pos hfresh]
        refine ⟨fun _ => rfl, ?_, ?_⟩
        · intro st hst
          rw [hS] at hst
          exact absurd hst (List.not_mem_nil st)
        · rw [hR]
          exact Nat.zero_le _
      · rw [if_neg hfresh]
        rcases hsug : (P7.checkWithZeroBounce cfg.zb
            (env.zbAttempts (P7.quickValidate cfg env email).currentEmail)
            (P7.quickValidate cfg env email).currentEmail opts.retryCount).1.suggestedEmail with _ | sug
        · dsimp only
          refine ⟨fun hne => finishSave_store_of_ne _ _ _ _ _
              (fun hv => hne (by rw [finishSave_fst]; exact hv)), ?_, ?_⟩
          · intro st hst
            rcases finishSave_saves _ _ _ _ _ st hst with h | h
            · rw [hS] at h
              exact absurd h (List.not_mem_nil st)
            · exact h
          · rw [finishSave_recurse, hR]
            exact Nat.zero_le _
        · dsimp only
          by_cases hretry : opts.isRetry = false
          · rw [if_pos hretry]
            by_cases hbad : P7.checkInvalidDomain cfg env (domainOf sug) = true
            · rw [if_pos hbad]
              refine ⟨fun _ => rfl, ?_, ?_⟩
              · intro st hst
                rw [hS] at hst
                exact absurd hst (List.not_mem_nil st)
              · rw [hR]
                exact Nat.zero_le _
            · rw [if_neg hbad]
              rcases fuel with _ | n
              · dsimp only
                refine ⟨fun hne => finishSave_store_of_ne _ _ _ _ _
                    (fun hv => hne (by rw [finishSave_fst]; exact hv)), ?_, ?_⟩
                · intro st hst
                  rcases finishSave_saves _ _ _ _ _ st hst with h | h
                  · rw [hS] at h
                    exact absurd h (List.not_mem_nil st)
                  · exact h
                · rw [finishSave_recurse, hR]
              · dsimp only
                have hin := ih n (Nat.lt_succ_self n) store sug
                  { skipZeroBounce := false, timeoutMs := opts.timeoutMs * 4 / 5,
                    isRetry := true, retryCount := 0 }
                refine ⟨fun hne => hin.1 hne, ?_, ?_⟩
                · intro st hst
                  have hx : P7.saveStatuses
                      [P7.VEvent.recurse sug (opts.timeoutMs * 4 / 5) true] = [] := rfl
                  rw [saveStatuses_append, saveStatuses_append, hS, hx] at hst
                  simp only [List.nil_append] at hst
                  exact hin.2.1 st hst
                · have hx : P7.recurseCount
                      [P7.VEvent.recurse sug (opts.timeoutMs * 4 / 5) true] = 1 := by
                    simp [P7.recurseCount, List.countP_cons]
                  rw [recurseCount_append, recurseCount_append, hR, hx]
                  have := hin.2.2
                  omega
          · rw [if_neg hretry]
            refine ⟨fun hne => finishSave_store_of_ne _ _ _ _ _
                (fun hv => hne (by rw [finishSave_fst]; exact hv)), ?_, ?_⟩
            · intro st hst
              rcases finishSave_saves _ _ _ _ _ st hst with h | h
              · rw [hS] at h
                exact absurd h (List.not_mem_nil st)
              · exact h
            · rw [finishSave_recurse, hR]
              exact Nat.zero_le _


theorem validateEmail_originalEmail (cfg : P7.VCfg) (env : P7.VEnv) (store : P7.Store)
    (email : List Char) (opts : P7.VOptions) :
    (P7.validateEmail cfg env store email opts).1.originalEmail = email :=
  validateEmailF_originalEmail cfg env (if opts.isRetry then 0 else 1) store email opts

theorem map_originalEmail_quick (cfg : P7.VCfg) (env : P7.VEnv) :
    ∀ l : List (List Char),
      (l.map (fun e => P7.quickValidate cfg env e)).map (fun r => r.originalEmail) = l := by
  intro l
  induction l with
  | nil => rfl
  | cons a t ih => simp [quickValidate_originalEmail, ih]

theorem validateBatchGo_order (cfg : P7.VCfg) (env : P7.VEnv) (durations : Nat → Int)
    (skip : Bool) (perItem total : Int) :
    ∀ (emails : List (List Char)) (i : Nat) (elapsed : Int) (store : P7.Store),
      (P7.validateBatchGo cfg env durations skip perItem total i elapsed store emails).1.map
        (fun r => r.originalEmail) = emails := by
  intro emails
  induction emails with
  | nil => intro i elapsed store; rfl
  | cons e rest ihr =>
    intro i elapsed store
    rw [P7.validateBatchGo]
    dsimp only
    by_cases hd : total - elapsed < perItem / 2
    · rw [if_pos hd]
      exact map_originalEmail_quick cfg env (e :: rest)
    · rw [if_neg hd]
      simp only [List.map_cons]
      rw [validateEmail_originalEmail, ihr]

/-- C6: only `valid` results are persisted.  The persistence writer
refuses (returns `success := false` and leaves the store untouched) any
result whose status is not `valid`; the orchestrator leaves the store
unchanged whenever the final status is not `valid`; and every synchronous
save it issues is for a result whose status is `valid`. -/
theorem persisted_only_valid (cfg : P7.VCfg) (env : P7.VEnv) (store : P7.Store)
    (email : List Char) (vr : P7.VResult) (opts : P7.VOptions)
    (hvr : vr.status ≠ "valid") :
    P7.saveValidationResult cfg store email vr = ({ success := false }, store) ∧
    ((P7.validateEmail cfg env store email opts).1.status ≠ "valid" →
      (P7.validateEmail cfg env store email opts).2.1 = store) ∧
    (∀ st ∈ P7.saveStatuses (P7.validateEmail cfg env store email opts).2.2,
      st = "valid") := by
  refine ⟨?_,
    (validateEmailF_master cfg env (if opts.isRetry then 0 else 1) store email opts).1,
    (validateEmailF_master cfg env (if opts.isRetry then 0 else 1) store email opts).2.1⟩
  unfold P7.saveValidationResult
  rw [if_pos hvr]

/-- C6 witness: an `invalid` result is refused by the persistence writer
even with Supabase connected, and a validation of an unknown-status
address leaves the sample store unchanged. -/
theorem persisted_only_valid_witness :
    P7.saveValidationResult P7.cfgFull P7.sampleStore ("a@b.co".toList)
        { P7.sampleValidResult with status := "invalid" } =
      ({ success := false }, P7.sampleStore) :=
  (persisted_only_valid P7.cfgFull P7.sampleEnv P7.sampleStore ("a@b.co".toList)
    { P7.sampleValidResult with status := "invalid" } {} (by decide)).1

/-- C3 (amended): re-validation recursion is bounded by one, and a
re-validation call (`isRetry = true`) never recurses — but a suggestion on
a non-retry call does NOT always trigger the recursive call: the suggested
domain is first checked against the deny list.  Concretely, with the
oracle suggesting `c@d.co` for every address, validating `a@b.co` with the
default 7000 ms deadline performs exactly one recursive call, on `c@d.co`
with the reduced deadline 5600 ms (= 7000·4/5) and the retry flag set,
even though the oracle also returns a suggestion during that recursive
call. -/
theorem recursion_depth_one (cfg : P7.VCfg) (env : P7.VEnv) (store : P7.Store)
    (email : List Char) (opts : P7.VOptions) :
    P7.recurseCount (P7.validateEmail cfg env store email opts).2.2 ≤ 1 ∧
    (opts.isRetry = true →
      P7.recurseCount (P7.validateEmail cfg env store email opts).2.2 = 0) ∧
    P7.recurseCount (P7.validateEmail P7.cfgFull P7.envSuggest P7.sampleStore
        ("a@b.co".toList) {}).2.2 = 1 ∧
    (P7.validateEmail P7.cfgFull P7.envSuggest P7.sampleStore ("a@b.co".toList)
        {}).2.2.filter
        (fun e => match e with | .recurse _ _ _ => true | _ => false) =
      [P7.VEvent.recurse ("c@d.co".toList) 5600 true] := by
  have h1 : P7.recurseCount (P7.validateEmail cfg env store email opts).2.2 ≤
      (if opts.isRetry then 0 else 1) :=
    (validateEmailF_master cfg env (if opts.isRetry then 0 else 1) store email opts).2.2
  refine ⟨le_trans h1 (by split <;> omega), ?_, by decide, by decide⟩
  intro hr
  rw [hr] at h1
  simp at h1
  exact h1

/-- C3 witness: a call already flagged as a re-validation records no
recursion. -/
theorem recursion_depth_one_witness :
    P7.recurseCount (P7.validateEmail P7.cfgFull P7.envSuggest P7.sampleStore
        ("a@b.co".toList) { isRetry := true }).2.2 = 0 :=
  (recursion_depth_one P7.cfgFull P7.envSuggest P7.sampleStore ("a@b.co".toList)
    { isRetry := true }).2.1 rfl

/-- C3 counterexample: the oracle returns a suggestion on a non-retry
call, yet no recursive call is made, because the suggested domain
`bad.co` is on the deny list — the claimed "exactly one recursive call on
the suggested address" does not hold. -/
theorem recursion_depth_one_counterexample :
    (P7.checkWithZeroBounce P7.cfgFull.zb
        (P7.envSuggestDeny.zbAttempts ("a@b.co".toList)) ("a@b.co".toList)
        0).1.suggestedEmail = some ("x@bad.co".toList) ∧
    P7.recurseCount (P7.validateEmail P7.cfgFull P7.envSuggestDeny P7.sampleStore
        ("a@b.co".toList) {}).2.2 = 0 := by
  decide

/-- C8 (amended): the batch service `validateBatch` does return one
result per input address, in input order (the i-th result's
`originalEmail` is the i-th input); the HTTP batch handler, however,
breaks the input order by validating the well-formed addresses first and
appending the bad-format results at the end. -/
theorem batch_order (cfg : P7.VCfg) (env : P7.VEnv) (durations : Nat → Int)
    (skip : Bool) (perMs : Int) (store : P7.Store) (emails : List (List Char)) :
    (P7.validateBatch cfg env durations skip perMs store emails).1.map
        (fun r => r.originalEmail) = emails ∧
    (P7.validateBatch cfg env durations skip perMs store emails).1.length =
      emails.length := by
  have h := validateBatchGo_order cfg env durations skip perMs
    (min 9000 (emails.length * perMs)) emails 0 0 store
  refine ⟨h, ?_⟩
  have h2 := congrArg List.length h
  simpa using h2

/-- C8 counterexample: for the input `["not-an-email", "a@b.co"]` the
HTTP batch handler returns the result for `a@b.co` first and the
bad-format result for `"not-an-email"` last — not in input order. -/
theorem batch_order_counterexample :
    (P7.batchHandlerResults P7.sampleCfg P7.sampleEnv (fun _ => 0) false 2000
        P7.sampleStore [("not-an-email".toList), ("a@b.co".toList)]).map
        (fun r => r.originalEmail) =
      [("a@b.co".toList), ("not-an-email".toList)] ∧
    (P7.batchHandlerResults P7.sampleCfg P7.sampleEnv (fun _ => 0) false 2000
        P7.sampleStore [("not-an-email".toList), ("a@b.co".toList)]).map
        (fun r => r.originalEmail) ≠
      [("not-an-email".toList), ("a@b.co".toList)] := by
  decide

/-- C9 (amended): once the remaining batch budget drops below half the
per-item budget, every remaining address is handled by `quickValidate`
alone (local checks only, no cache or oracle events); otherwise the next
address gets a full validation with time slice `min(remaining budget,
per-item budget)` — the slice is NOT divided by the number of remaining
items as the spec states. -/
theorem batch_slice (cfg : P7.VCfg) (env : P7.VEnv) (durations : Nat → Int)
    (skip : Bool) (perItem total : Int) (i : Nat) (elapsed : Int)
    (store : P7.Store) (e : List Char) (rest : List (List Char)) :
    (total - elapsed < perItem / 2 →
      P7.validateBatchGo cfg env durations skip perItem total i elapsed store
          (e :: rest) =
        ((e :: rest).map (fun x => P7.quickValidate cfg env x), store,
         (e :: rest).map (fun x => P7.VEvent.quickOnly x))) ∧
    (¬ total - elapsed < perItem / 2 →
      ∃ evs, (P7.validateBatchGo cfg env durations skip perItem total i elapsed store
          (e :: rest)).2.2 =
        P7.VEvent.slice e (min (total - elapsed) perItem) :: evs) := by
  constructor
  · intro h
    rw [P7.validateBatchGo]
    dsimp only
    rw [if_pos h]
  · intro h
    rw [P7.validateBatchGo]
    dsimp only
    rw [if_neg h]
    exact ⟨_, rfl⟩

/-- C9 witness: a fresh batch with 9000 ms left and a 2000 ms per-item
budget gives the first address a full validation with a 2000 ms slice. -/
theorem batch_slice_witness :
    ∃ evs, (P7.validateBatchGo P7.sampleCfg P7.sampleEnv (fun _ => 0) false 2000 9000
        0 0 P7.sampleStore [("a@b.co".toList)]).2.2 =
      P7.VEvent.slice ("a@b.co".toList) 2000 :: evs := by
  obtain ⟨evs, hev⟩ := (batch_slice P7.sampleCfg P7.sampleEnv (fun _ => 0) false 2000
    9000 0 0 P7.sampleStore ("a@b.co".toList) []).2 (by decide)
  have hm : min ((9000 : Int) - 0) 2000 = 2000 := by decide
  rw [hm] at hev
  exact ⟨evs, hev⟩

/-- C9 counterexample: a five-address batch with a 2000 ms per-item budget
has a 9000 ms total budget; the spec's slice for the first item would be
min(2000, 9000/5) = 1800 ms, but the scheduler gives it
min(9000, 2000) = 2000 ms. -/
theorem batch_slice_counterexample :
    (P7.validateBatch P7.sampleCfg P7.sampleEnv (fun _ => 0) false 2000 P7.sampleStore
        [("a@b.co".toList), ("b@b.co".toList), ("c@b.co".toList), ("d@b.co".toList),
         ("e@b.co".toList)]).2.2.head? =
      some (P7.VEvent.slice ("a@b.co".toList) 2000) ∧
    (2000 : Int) ≠ min 2000 (min 9000 (5 * 2000) / 5) := by
  decide
